import Mathlib

/-!
Shallow embedding of the component core of the automello/JUCE GUI toolkit
(`src/automello Plugin/juce/src/gui/components/juce_Component.cpp`) and of the
Introjucer settings utility
(`src/automello Plugin/juce/extras/Introjucer/Source/Utility/jucer_StoredSettings.cpp`).

Components are identified by natural-number ids; the global GUI state keeps, for
every id, the fields of the C++ `Component` object that the verified claims touch
(name, parent pointer, child list, flags, bounds, listener lists), together with
the process-wide modal stack and desktop component list.  Machine `int` values are
modelled as `Int` (no arithmetic here ever approaches overflow), pointers as
`Option Nat`, and the virtual methods a subclass may override
(`hitTest`, `canModalEventBeSentToComponent`, listener callbacks) either as
function-valued fields of the state or as explicit effect parameters.

Side effects that live outside the modelled state (native peers, painting,
keyboard-focus resolution, sounds) are recorded in an event log or noted in the
doc comment of the embedding; they never feed back into the modelled fields,
which matches the base-class behaviour of the source (the base implementations of
`mouseDown`, `parentHierarchyChanged`, `childrenChanged`, ... are empty).
-/

namespace Automello

/-- A JUCE `Point<int>`: a pair of integer coordinates. -/
structure Point where
  x : Int
  y : Int
deriving DecidableEq, Repr

/-- Componentwise addition, as produced by `Point::operator+`. -/
def Point.add (a b : Point) : Point := ⟨a.x + b.x, a.y + b.y⟩

/-- Componentwise subtraction, as produced by `Point::operator-`. -/
def Point.sub (a b : Point) : Point := ⟨a.x - b.x, a.y - b.y⟩

/-- A JUCE `Rectangle<int>`. -/
structure Rect where
  x : Int
  y : Int
  w : Int
  h : Int
deriving DecidableEq, Repr

/-- Abstraction of a JUCE `AffineTransform` as used by the coordinate-conversion
helpers: `fwd` stands for the float pipeline
`p.toFloat().transformedBy (t).toInt()`, `inv` for the same pipeline through
`t.inverted()`, and `fwdRect`/`invRect` for the rectangle pipelines
`r.toFloat().transformed (t).getSmallestIntegerContainer()`.  The claims under
verification only constrain the branch where the component has no transform, so
the float pipelines are kept as opaque integer maps. -/
structure AffineMap where
  fwd : Point → Point
  inv : Point → Point
  fwdRect : Rect → Rect
  invRect : Rect → Rect

/-- The JUCE helper `isPositiveAndBelow (valueToTest, upperLimit)`:
`0 <= v && v < upperLimit`. -/
def isPositiveAndBelow (v upperLimit : Int) : Bool :=
  decide (0 ≤ v) && decide (v < upperLimit)

/-! ## Settings persistence (`jucer_StoredSettings.cpp`)

A JUCE `File` is identified by its full path name, modelled as a list of
characters; the `PropertiesFile` is modelled as its key/value map (missing keys
read back as the empty string, which is what `PropertiesFile::getValue` returns
by default). -/

/-- A file path (the `getFullPathName()` of a JUCE `File`), as a character list. -/
abbrev Path := List Char

/-- Modelled from the spec: the settings-persistence property store
(`PropertiesFile`, not part of the reviewed sources) is a key/value map from
property names to string values; `getValue` of an absent key is the empty
string. -/
def Props := String → Path

/-- Modelled from the spec: `PropertiesFile::setValue` overwrites the value
stored under one key. -/
def Props.setValue (props : Props) (k : String) (v : Path) : Props :=
  fun k' => if k' = k then v else props k'

/-- Modelled from the spec: `StringArray::joinIntoString ("|")` (not part of the
reviewed sources) concatenates the strings of the array with a single `'|'`
between consecutive entries. -/
def joinBar : List Path → Path
  | [] => []
  | [p] => p
  | p :: rest => p ++ '|' :: joinBar rest

/-- Splitting of a nonempty text at `'|'` characters, keeping empty tokens
(helper for `addTokensBar`). -/
def splitBar : Path → List Path
  | [] => [[]]
  | c :: rest =>
      if c = '|' then [] :: splitBar rest
      else
        match splitBar rest with
        | [] => [[c]]
        | t :: ts => (c :: t) :: ts

/-- Modelled from the spec: `StringArray::addTokens (text, "|", "")` (not part of
the reviewed sources) adds no tokens when `text` is empty, and otherwise splits
`text` at every `'|'`, keeping the (possibly empty) tokens between consecutive
separators. -/
def addTokensBar (text : Path) : List Path :=
  if text = [] then [] else splitBar text

/-- Embedding of `StoredSettings::setLastProjects`: the full path names of the
files are joined with `'|'` and stored under the property `"lastProjects"`. -/
def setLastProjects (props : Props) (files : List Path) : Props :=
  props.setValue "lastProjects" (joinBar files)

/-- Embedding of `StoredSettings::getLastProjects`: the property
`"lastProjects"` is tokenised at `'|'` and each token is turned back into a file
(a `File` built from a full path name is identified with that path). -/
def getLastProjects (props : Props) : List Path :=
  addTokensBar (props "lastProjects")

/-- An empty property store. -/
def emptyProps : Props := fun _ => []

/-! ## The component model (`juce_Component.cpp`)

Components are identified by `Nat` ids.  The global state `Gui` maps every id to
the modelled fields of its `Component` object and keeps the process-wide modal
stack and desktop-component list.  Debug assertions (`jassert`) are counted in
`softAsserts`; callbacks and effects that live outside the modelled fields
(painting, native peers, keyboard focus, sounds, fake mouse moves) are recorded
in the event log.  In this model listener callbacks are base-class no-ops and so
never mutate the tree; the reentrant-callback behaviour of the dispatch loops is
modelled separately (see the dispatch model further below). -/

/-- Modelled from the spec: the style flags of a native window peer
(`ComponentPeer::getStyleFlags()`, outside the reviewed sources).  Only the
semi-transparency bit is ever manipulated by the reviewed code
(`addToDesktop` forces it to match the component's opacity), so it is kept
separately from the remaining bits. -/
structure WindowStyle where
  semiTransparent : Bool
  otherFlags : Nat
deriving DecidableEq, Repr

/-- State of a `Component::MouseListenerList`: the listener array together with
`numDeepMouseListeners` (the count of listeners that want events from all nested
child components, kept at the front of the array). -/
structure MouseListenerListState where
  listeners : List Nat
  numDeepMouseListeners : Int
deriving DecidableEq, Repr

/-- The modelled fields of a `Component`: name, parent pointer, child list, the
flags bit-field, the bounds rectangle, the optional affine transform and the two
listener lists.  `hitTestFn` and the absent fields (look-and-feel, effects,
colours, buffered image, ...) play no part in the verified claims. -/
structure Comp where
  componentName : String
  parentComponent : Option Nat
  childComponentList : List Nat
  visibleFlag : Bool
  currentlyModalFlag : Bool
  alwaysOnTopFlag : Bool
  hasHeavyweightPeerFlag : Bool
  bringToFrontOnClickFlag : Bool
  dontFocusOnMouseClickFlag : Bool
  mouseDownFlag : Bool
  mouseOverFlag : Bool
  repaintOnMouseActivityFlag : Bool
  opaqueFlag : Bool
  boundsX : Int
  boundsY : Int
  boundsW : Int
  boundsH : Int
  affineTransform : Option AffineMap
  componentListeners : List Nat
  mouseListeners : Option MouseListenerListState
  peerStyle : Option WindowStyle

/-- The state produced by the `Component()` constructor: zeroed flags
(`componentFlags (0)`), default bounds and no parent, children or listeners. -/
def defaultComp : Comp where
  componentName := ""
  parentComponent := none
  childComponentList := []
  visibleFlag := false
  currentlyModalFlag := false
  alwaysOnTopFlag := false
  hasHeavyweightPeerFlag := false
  bringToFrontOnClickFlag := false
  dontFocusOnMouseClickFlag := false
  mouseDownFlag := false
  mouseOverFlag := false
  repaintOnMouseActivityFlag := false
  opaqueFlag := false
  boundsX := 0
  boundsY := 0
  boundsW := 0
  boundsH := 0
  affineTransform := none
  componentListeners := []
  mouseListeners := none
  peerStyle := none

/-- `Component::getX()`. -/
def Comp.getX (c : Comp) : Int := c.boundsX

/-- `Component::getY()`. -/
def Comp.getY (c : Comp) : Int := c.boundsY

/-- `Component::getWidth()`. -/
def Comp.getWidth (c : Comp) : Int := c.boundsW

/-- `Component::getHeight()`. -/
def Comp.getHeight (c : Comp) : Int := c.boundsH

/-- `Component::getPosition()`: the top-left corner of the bounds, in the
parent's coordinate space. -/
def Comp.getPosition (c : Comp) : Point := ⟨c.boundsX, c.boundsY⟩

/-- `Component::ComponentHelpers::convertFromParentSpace` for a point: without a
transform, translate by minus the component's position; with one, send the point
through the inverted transform's float pipeline first. -/
def Comp.convertFromParentSpace (comp : Comp) (pointInParentSpace : Point) : Point :=
  match comp.affineTransform with
  | none => pointInParentSpace.sub comp.getPosition
  | some t => (t.inv pointInParentSpace).sub comp.getPosition

/-- `Component::ComponentHelpers::convertToParentSpace` for a point: without a
transform, translate by plus the component's position; with one, send the
translated point through the transform's float pipeline. -/
def Comp.convertToParentSpace (comp : Comp) (pointInLocalSpace : Point) : Point :=
  match comp.affineTransform with
  | none => pointInLocalSpace.add comp.getPosition
  | some t => t.fwd (pointInLocalSpace.add comp.getPosition)

/-- Events recorded by the embedded operations: the mouse-event deliveries that
claim C1 is about, plus a generic `notify` entry for the remaining callbacks and
out-of-model effects (named after the source call they stand for). -/
inductive GuiEvent where
  | mouseDownCallback (target : Nat)
  | inputAttemptWhenModalEvent (modal : Nat)
  | desktopMouseDown (target : Nat)
  | mouseListenerMouseDown (target : Nat)
  | peerRepaint (c : Nat) (r : Rect)
  | notify (what : String) (c : Nat)
deriving DecidableEq, Repr

/-- The global GUI state: the component store, the `ModalComponentManager`
stack (head = the currently modal component), the desktop component list, the
table of `canModalEventBeSentToComponent` virtual overrides (the base class
returns `false` for every argument), the set of component ids whose objects have
been destroyed (feeding the `BailOutChecker`s), the event log and the count of
fired debug assertions. -/
structure Gui where
  comps : Nat → Comp
  modalStack : List Nat
  desktopComps : List Nat
  canModalFn : Nat → Nat → Bool
  deleted : List Nat
  events : List GuiEvent
  softAsserts : Nat

/-- The state before any components are touched: every id maps to a
default-constructed component, nothing is modal, on the desktop or deleted. -/
def initGui : Gui where
  comps := fun _ => defaultComp
  modalStack := []
  desktopComps := []
  canModalFn := fun _ _ => false
  deleted := []
  events := []
  softAsserts := 0

/-- Append one event to the log. -/
def logEvent (g : Gui) (e : GuiEvent) : Gui :=
  { g with events := g.events ++ [e] }

/-- Rewrite the stored fields of one component. -/
def updateComp (g : Gui) (c : Nat) (f : Comp → Comp) : Gui :=
  { g with comps := fun i => if i = c then f (g.comps i) else g.comps i }

/-- A fired `jassert` (debug builds stop here; release builds continue). -/
def recordAssert (g : Gui) : Gui :=
  { g with softAsserts := g.softAsserts + 1 }

/-- The `CHECK_MESSAGE_MANAGER_IS_LOCKED` macro:
`jassert (MessageManager::getInstance()->currentThreadHasLockedMessageManager())`.
`mml` says whether the calling thread holds the message-manager lock; the macro
only ever reads that state, it takes no lock itself. -/
def checkMM (mml : Bool) (g : Gui) : Gui :=
  if mml then g else recordAssert g

/-- `BailOutChecker::shouldBailOut()`: true when the watched component has been
deleted since the checker was created.  (A checker is only ever constructed on a
live component, so the initial status is `false` whenever the component is not
in `deleted`.) -/
def shouldBailOut (g : Gui) (c : Nat) : Bool :=
  c ∈ g.deleted

/-! Parent-chain queries.  The C++ loops follow `parentComponent` pointers until
they hit null; the embedding carries an explicit fuel, which any bound on the
chain length makes irrelevant (see `rootedIn`). -/

/-- `Component::isParentOf (possibleChild)`: walk up from `possibleChild`,
moving to the parent first and then comparing against the receiver. -/
def isParentOf (g : Gui) (self : Nat) : Option Nat → Nat → Bool
  | _, 0 => false
  | none, _ => false
  | some child, fuel + 1 =>
      match (g.comps child).parentComponent with
      | none => false
      | some p => if p = self then true else isParentOf g self (some p) fuel

/-- The list of strict ancestors of `c`, nearest first, read off the parent
pointers with the given fuel (the specification-side notion of the parent
chain). -/
def ancestorChain (g : Gui) (c : Nat) : Nat → List Nat
  | 0 => []
  | fuel + 1 =>
      match (g.comps c).parentComponent with
      | none => []
      | some p => p :: ancestorChain g p fuel

/-- `rootedIn g c fuel` holds when following parent pointers from `c` reaches a
component without a parent within `fuel` steps — on such components the fuelled
loops compute the same answers as the unbounded C++ loops. -/
def rootedIn (g : Gui) (c : Nat) : Nat → Bool
  | 0 => false
  | fuel + 1 =>
      match (g.comps c).parentComponent with
      | none => true
      | some p => rootedIn g p fuel

/-- `Component::getTopLevelComponent()`: follow parent pointers while a parent
exists. -/
def getTopLevelComponent (g : Gui) (c : Nat) : Nat → Nat
  | 0 => c
  | fuel + 1 =>
      match (g.comps c).parentComponent with
      | none => c
      | some p => getTopLevelComponent g p fuel

/-- `Component::isShowing()`: visible, and so are all ancestors; a parentless
component is showing when it has a peer (peers are modelled as never
minimised). -/
def isShowing (g : Gui) (c : Nat) : Nat → Bool
  | 0 => false
  | fuel + 1 =>
      if (g.comps c).visibleFlag then
        match (g.comps c).parentComponent with
        | some p => isShowing g p fuel
        | none => (g.comps c).hasHeavyweightPeerFlag
      else false

/-! Modal-state queries. -/

/-- `Component::getCurrentlyModalComponent (0)`: the most recently started modal
component; modelled from the spec for the `ModalComponentManager` singleton
(outside the reviewed sources): `startModal` pushes onto the stack and
`getModalComponent` reads from the most recent end. -/
def getCurrentlyModalComponent (g : Gui) : Option Nat :=
  g.modalStack.head?

/-- `Component::isCurrentlyModal()`: the modal flag is set and this component is
the active modal component. -/
def isCurrentlyModal (g : Gui) (c : Nat) : Bool :=
  (g.comps c).currentlyModalFlag && getCurrentlyModalComponent g == some c

/-- `Component::isCurrentlyBlockedByAnotherModalComponent()`: not
(no modal component, or it is this component, or an ancestor of it, or it
allows events through to it). -/
def isCurrentlyBlockedByAnotherModalComponent (g : Gui) (c : Nat) (fuel : Nat) : Bool :=
  match getCurrentlyModalComponent g with
  | none => false
  | some mc => ! (mc == c || isParentOf g mc (some c) fuel || g.canModalFn mc c)

/-! JUCE `Array<Component*>` primitives used by the hierarchy operations. -/

/-- `Array::operator[]`: the element at the index, or a default-constructed
value (nullptr) when the index is out of range. -/
def juceGetOpt (l : List Nat) (i : Int) : Option Nat :=
  if 0 ≤ i ∧ i < l.length then l[i.toNat]? else none

/-- `Array::indexOf`: the first index holding the value, `-1` when absent. -/
def juceIndexOf (l : List Nat) (a : Nat) : Int :=
  match l with
  | [] => -1
  | x :: rest =>
      if x = a then 0
      else
        let r := juceIndexOf rest a
        if r < 0 then -1 else r + 1

/-- `Array::insert (indexToInsertAt, newElement)`: inserts at the index when it
is in range, otherwise appends at the end. -/
def juceInsert (i : Int) (a : Nat) (l : List Nat) : List Nat :=
  if 0 ≤ i ∧ i < l.length then l.insertIdx i.toNat a else l ++ [a]

/-- `Array::remove (indexToRemove)`: removes the element at the index when it is
in range, otherwise does nothing. -/
def juceRemoveIdx (l : List Nat) (i : Int) : List Nat :=
  if 0 ≤ i ∧ i < l.length then l.eraseIdx i.toNat else l

/-- `Array::move (currentIndex, newIndex)`: when `currentIndex` is in range,
removes the element there and re-inserts it at `newIndex` (clamped into the
array); out-of-range `newIndex` means the far end. -/
def juceMove (cur dest : Int) (l : List Nat) : List Nat :=
  if 0 ≤ cur ∧ cur < l.length then
    let e := l.getD cur.toNat 0
    let rest := l.eraseIdx cur.toNat
    let d := if 0 ≤ dest ∧ dest < l.length then dest.toNat else rest.length
    rest.insertIdx d e
  else l

/-! ## The embedded operations

Every operation takes `mml` (does the calling thread hold the message-manager
lock?) wherever the source executes `CHECK_MESSAGE_MANAGER_IS_LOCKED`, and a
fuel wherever the source loops over parent pointers or recurses through the
tree.  Base-class virtual callbacks are no-ops, so dispatches are recorded in
the event log rather than re-entering the state; consequently the source's
re-clamping of loop indices after each callback (`i = jmin (i, ...)`) never has
anything to re-clamp here, and loops read their list once. -/

/-- `Component::ComponentHelpers::convertToParentSpace` for a rectangle. -/
def Comp.convertToParentSpaceRect (comp : Comp) (areaInLocalSpace : Rect) : Rect :=
  match comp.affineTransform with
  | none =>
      { areaInLocalSpace with
        x := areaInLocalSpace.x + comp.boundsX
        y := areaInLocalSpace.y + comp.boundsY }
  | some t =>
      t.fwdRect
        { areaInLocalSpace with
          x := areaInLocalSpace.x + comp.boundsX
          y := areaInLocalSpace.y + comp.boundsY }

/-- `Component::internalRepaint (x, y, w, h)`: clip the rectangle to the
component, then hand it to the visible parent (converted to its space) or to
the native peer. -/
def internalRepaint (mml : Bool) (g : Gui) (c : Nat) (x y w h : Int) : Nat → Gui
  | 0 => checkMM mml g
  | fuel + 1 =>
      let g := checkMM mml g
      let w := if x < 0 then w + x else w
      let x := if x < 0 then 0 else x
      let w := if x + w > (g.comps c).getWidth then (g.comps c).getWidth - x else w
      if 0 < w then
        let h := if y < 0 then h + y else h
        let y := if y < 0 then 0 else y
        let h := if y + h > (g.comps c).getHeight then (g.comps c).getHeight - y else h
        if 0 < h then
          match (g.comps c).parentComponent with
          | some p =>
              if (g.comps p).visibleFlag then
                match (g.comps c).affineTransform with
                | none =>
                    internalRepaint mml g p (x + (g.comps c).getX) (y + (g.comps c).getY) w h fuel
                | some _ =>
                    let r := (g.comps c).convertToParentSpaceRect ⟨x, y, w, h⟩
                    internalRepaint mml g p r.x r.y r.w r.h fuel
              else g
          | none =>
              if (g.comps c).hasHeavyweightPeerFlag then
                logEvent g (.peerRepaint c ⟨x, y, w, h⟩)
              else g
        else g
      else g

/-- `Component::repaint (x, y, w, h)`: drops the buffered image (not modelled)
and repaints when visible. -/
def repaintRect (mml : Bool) (fuel : Nat) (g : Gui) (c : Nat) (x y w h : Int) : Gui :=
  if (g.comps c).visibleFlag then internalRepaint mml g c x y w h fuel else g

/-- `Component::repaint ()`: repaint the whole bounds. -/
def repaintAll (mml : Bool) (fuel : Nat) (g : Gui) (c : Nat) : Gui :=
  repaintRect mml fuel g c 0 0 (g.comps c).getWidth (g.comps c).getHeight

/-- `Component::repaintParent()`: when visible, push a repaint of the whole
bounds up through the parent chain. -/
def repaintParent (mml : Bool) (fuel : Nat) (g : Gui) (c : Nat) : Gui :=
  if (g.comps c).visibleFlag then
    internalRepaint mml g c 0 0 (g.comps c).getWidth (g.comps c).getHeight fuel
  else g

/-- `Component::internalChildrenChanged()`: the `childrenChanged()` virtual,
then (when listeners exist and the component survived) the
`componentChildrenChanged` listener callbacks. -/
def internalChildrenChanged (g : Gui) (c : Nat) : Gui :=
  if (g.comps c).componentListeners = [] then
    logEvent g (.notify "childrenChanged" c)
  else
    let g := logEvent g (.notify "childrenChanged" c)
    if shouldBailOut g c then g
    else logEvent g (.notify "componentChildrenChanged" c)

/-- `Component::internalHierarchyChanged()`: `parentHierarchyChanged()`, the
`componentParentHierarchyChanged` listener callbacks, then recursion into the
children from the last to the first (hence the reversed list), bailing out of
the loop (with a `jassertfalse`) when a callback deleted the component; the
Boolean accumulator component is the early `return`. -/
def internalHierarchyChanged (g : Gui) (c : Nat) : Nat → Gui
  | 0 => g
  | fuel + 1 =>
      let g := logEvent g (.notify "parentHierarchyChanged" c)
      if shouldBailOut g c then g
      else
        let g := logEvent g (.notify "componentParentHierarchyChanged" c)
        if shouldBailOut g c then g
        else
          (((g.comps c).childComponentList.reverse).foldl
            (fun (acc : Gui × Bool) ch =>
              if acc.2 then acc
              else
                let g' := internalHierarchyChanged acc.1 ch fuel
                if shouldBailOut g' c then (recordAssert g', true)
                else (g', false))
            (g, false)).1

/-- `Component::sendVisibilityChangeMessage()`: the `visibilityChanged()`
virtual, then the `componentVisibilityChanged` listener callbacks unless a
callback deleted the component. -/
def sendVisibilityChangeMessage (g : Gui) (c : Nat) : Gui :=
  let g := logEvent g (.notify "visibilityChanged" c)
  if shouldBailOut g c then g
  else logEvent g (.notify "componentVisibilityChanged" c)

/-- `Component::setVisible (shouldBeVisible)`: flips the flag, repaints, hands
keyboard focus away when hiding (the focus singleton is outside the modelled
state), notifies, and forwards to the peer of a heavyweight component. -/
def setVisible (mml : Bool) (fuel : Nat) (g : Gui) (c : Nat) (shouldBeVisible : Bool) : Gui :=
  if (g.comps c).visibleFlag = shouldBeVisible then g
  else
    let g := checkMM mml g
    let g := updateComp g c fun co => { co with visibleFlag := shouldBeVisible }
    let g := internalRepaint mml g c 0 0 (g.comps c).getWidth (g.comps c).getHeight fuel
    let g := logEvent g (.notify "sendFakeMouseMove" c)
    let g := sendVisibilityChangeMessage g c
    if (g.comps c).hasHeavyweightPeerFlag then
      let g := if (g.comps c).peerStyle = none then recordAssert g else g
      let g :=
        if (g.comps c).peerStyle = none then g
        else internalHierarchyChanged (logEvent g (.notify "peerSetVisible" c)) c fuel
      g
    else g

/-- `Component::setName (name)`: rename, retitle the peer of a heavyweight
component, and notify the listeners. -/
def setName (mml : Bool) (g : Gui) (c : Nat) (name : String) : Gui :=
  let g := checkMM mml g
  if (g.comps c).componentName = name then g
  else
    let g := updateComp g c fun co => { co with componentName := name }
    let g :=
      if (g.comps c).hasHeavyweightPeerFlag then
        let g := if (g.comps c).peerStyle = none then recordAssert g else g
        if (g.comps c).peerStyle = none then g else logEvent g (.notify "peerSetTitle" c)
      else g
    if shouldBailOut g c then g else logEvent g (.notify "componentNameChanged" c)

/-- `Component::sendMovedResizedMessages (wasMoved, wasResized)`: `moved()`,
`resized()`, `parentSizeChanged()` on each child (last to first),
`childBoundsChanged` on the parent, then the `componentMovedOrResized`
listeners, abandoning the rest as soon as a callback deletes the component. -/
def sendMovedResizedMessages (g : Gui) (c : Nat) (wasMoved wasResized : Bool) : Gui :=
  let g1 := if wasMoved then logEvent g (.notify "moved" c) else g
  if wasMoved && shouldBailOut g1 c then g1
  else
    let g2 := if wasResized then logEvent g1 (.notify "resized" c) else g1
    if wasResized && shouldBailOut g2 c then g2
    else
      let g3 :=
        if wasResized then
          ((g2.comps c).childComponentList.reverse).foldl
            (fun acc ch => logEvent acc (.notify "parentSizeChanged" ch)) g2
        else g2
      if wasResized && shouldBailOut g3 c then g3
      else
        let g4 :=
          match (g3.comps c).parentComponent with
          | some p => logEvent g3 (.notify "childBoundsChanged" p)
          | none => g3
        if shouldBailOut g4 c then g4
        else logEvent g4 (.notify "componentMovedOrResized" c)

/-- `Component::setBounds (x, y, w, h)`: clamps negative sizes to zero, and when
the position or size actually changes, repaints around the update, stores the
new bounds, forwards them to the peer of a heavyweight component, and sends the
moved/resized notifications. -/
def setBounds (mml : Bool) (fuel : Nat) (g : Gui) (c : Nat) (x y w0 h0 : Int) : Gui :=
  let g := checkMM mml g
  let w := if w0 < 0 then 0 else w0
  let h := if h0 < 0 then 0 else h0
  let wasResized : Bool := ((g.comps c).getWidth != w) || ((g.comps c).getHeight != h)
  let wasMoved : Bool := ((g.comps c).getX != x) || ((g.comps c).getY != y)
  if wasMoved || wasResized then
    let showing := isShowing g c fuel
    let g :=
      if showing then
        let g := logEvent g (.notify "sendFakeMouseMove" c)
        if ! (g.comps c).hasHeavyweightPeerFlag then repaintParent mml fuel g c else g
      else g
    let g := updateComp g c fun co =>
      { co with boundsX := x, boundsY := y, boundsW := w, boundsH := h }
    let g :=
      if showing then
        if wasResized then repaintAll mml fuel g c
        else if ! (g.comps c).hasHeavyweightPeerFlag then repaintParent mml fuel g c
        else g
      else g
    let g :=
      if (g.comps c).hasHeavyweightPeerFlag then logEvent g (.notify "peerSetBounds" c)
      else g
    sendMovedResizedMessages g c wasMoved wasResized
  else g

/-- `Component::setTopLeftPosition (x, y)`: `setBounds` keeping the size. -/
def setTopLeftPosition (mml : Bool) (fuel : Nat) (g : Gui) (c : Nat) (x y : Int) : Gui :=
  setBounds mml fuel g c x y (g.comps c).getWidth (g.comps c).getHeight

/-- `Component::removeFromDesktop()`: destroy the peer of a heavyweight
component and take it off the desktop list (`Desktop::removeDesktopComponent`,
modelled from the spec as removal from the list). -/
def removeFromDesktop (mml : Bool) (g : Gui) (c : Nat) : Gui :=
  let g := checkMM mml g
  if (g.comps c).hasHeavyweightPeerFlag then
    let g := if (g.comps c).peerStyle = none then recordAssert g else g
    let g := updateComp g c fun co =>
      { co with hasHeavyweightPeerFlag := false, peerStyle := none }
    { g with desktopComps := g.desktopComps.erase c }
  else g

/-- `Component::removeChildComponent (index, sendParentEvents, sendChildEvents)`:
unlink the child at the index (when one exists), clearing its parent pointer and
sending the requested notifications; returns the removed child.  The
keyboard-focus hand-off block touches only the focus singleton and its
callbacks, which live outside the modelled state. -/
def removeChildComponentIdx (mml : Bool) (fuel : Nat) (g : Gui) (p : Nat) (index : Int)
    (sendParentEvents0 sendChildEvents : Bool) : Gui × Option Nat :=
  let g := checkMM mml g
  match juceGetOpt (g.comps p).childComponentList index with
  | none => (g, none)
  | some child =>
      let sendParentEvents := sendParentEvents0 && isShowing g child fuel
      let g :=
        if sendParentEvents then
          repaintParent mml fuel (logEvent g (.notify "sendFakeMouseMove" p)) child
        else g
      let g := updateComp g p fun co =>
        { co with childComponentList := juceRemoveIdx co.childComponentList index }
      let g := updateComp g child fun co => { co with parentComponent := none }
      let g := if sendChildEvents then internalHierarchyChanged g child fuel else g
      let g := if sendParentEvents then internalChildrenChanged g p else g
      (g, some child)

/-- `Component::removeChildComponent (child)`: remove by index of the child. -/
def removeChildComponent (mml : Bool) (fuel : Nat) (g : Gui) (p : Nat) (child : Nat) : Gui :=
  (removeChildComponentIdx mml fuel g p
    (juceIndexOf (g.comps p).childComponentList child) true true).1

/-- Decreasing scan of `addChildComponent`: starting below the insertion point,
step over always-on-top children (`while (zOrder > 0)` ... `--zOrder`). -/
def zOrderSkipAlwaysOnTop (g : Gui) (cl : List Nat) : Nat → Nat
  | 0 => 0
  | z + 1 =>
      if (g.comps (cl.getD z 0)).alwaysOnTopFlag then zOrderSkipAlwaysOnTop g cl z
      else z + 1

/-- `Component::addChildComponent (child, zOrder)`: when the child is non-null
and not already ours, detach it from its previous parent (or the desktop), make
it ours, and insert it into the child list at the requested z-order, kept below
the always-on-top children unless it is one itself. -/
def addChildComponent (mml : Bool) (fuel : Nat) (g : Gui) (p : Nat)
    (childOpt : Option Nat) (zOrder0 : Int) : Gui :=
  let g := checkMM mml g
  match childOpt with
  | none => g
  | some child =>
      if (g.comps child).parentComponent = some p then g
      else
        let g :=
          match (g.comps child).parentComponent with
          | some oldParent => removeChildComponent mml fuel g oldParent child
          | none => removeFromDesktop mml g child
        let g := updateComp g child fun co => { co with parentComponent := some p }
        let g := if (g.comps child).visibleFlag then repaintParent mml fuel g child else g
        let cl := (g.comps p).childComponentList
        let zOrder : Int :=
          if ! (g.comps child).alwaysOnTopFlag then
            let z := if zOrder0 < 0 || zOrder0 > (cl.length : Int) then (cl.length : Int) else zOrder0
            (zOrderSkipAlwaysOnTop g cl z.toNat : Int)
          else zOrder0
        let g := updateComp g p fun co =>
          { co with childComponentList := juceInsert zOrder child co.childComponentList }
        let g := internalHierarchyChanged g child fuel
        internalChildrenChanged g p

/-- `Component::moveChildInternal (sourceIndex, destIndex)`: move one entry of
the child list, repainting and notifying. -/
def moveChildInternal (mml : Bool) (fuel : Nat) (g : Gui) (p : Nat)
    (sourceIndex destIndex : Int) : Gui :=
  if sourceIndex = destIndex then g
  else
    let g :=
      match juceGetOpt (g.comps p).childComponentList sourceIndex with
      | none => recordAssert g
      | some ch => repaintParent mml fuel g ch
    let g := updateComp g p fun co =>
      { co with childComponentList := juceMove sourceIndex destIndex co.childComponentList }
    let g := logEvent g (.notify "sendFakeMouseMove" p)
    internalChildrenChanged g p

/-- `Component::localPointToGlobal`, restricted to what the model sees: climb
the parent chain converting into each parent's space; a native peer's
screen origin is modelled at the global origin. -/
def localPointToGlobal (g : Gui) (c : Nat) (p : Point) : Nat → Point
  | 0 => p
  | fuel + 1 =>
      if (g.comps c).hasHeavyweightPeerFlag then p
      else
        let p' := (g.comps c).convertToParentSpace p
        match (g.comps c).parentComponent with
        | some par => localPointToGlobal g par p' fuel
        | none => p'

/-- `Component::getScreenPosition()`. -/
def getScreenPosition (g : Gui) (c : Nat) (fuel : Nat) : Point :=
  localPointToGlobal g c ⟨0, 0⟩ fuel

/-- `Component::internalBroughtToFront()`: the `broughtToFront` callbacks, and a
bring-to-front of the modal components when a modal component lives in another
top-level window. -/
def internalBroughtToFront (fuel : Nat) (g : Gui) (c : Nat) : Gui :=
  let g :=
    if (g.comps c).hasHeavyweightPeerFlag then
      logEvent g (.notify "desktopComponentBroughtToFront" c)
    else g
  let g := logEvent g (.notify "broughtToFront" c)
  if shouldBailOut g c then g
  else
    let g := logEvent g (.notify "componentBroughtToFront" c)
    if shouldBailOut g c then g
    else
      match getCurrentlyModalComponent g with
      | some cm =>
          if getTopLevelComponent g cm fuel ≠ getTopLevelComponent g c fuel then
            logEvent g (.notify "bringModalComponentsToFront" cm)
          else g
      | none => g

/-- Decreasing scan of `toFront`: from the end of the child list, step down over
always-on-top children. -/
def toFrontScan (g : Gui) (cl : List Nat) : Nat → Nat
  | 0 => 0
  | i + 1 =>
      if (g.comps (cl.getD (i + 1) 0)).alwaysOnTopFlag then toFrontScan g cl i
      else i + 1

/-- `Component::toFront (setAsForeground)`: forward to the peer of a
heavyweight component; otherwise move this child to the top of its parent's
list (but below always-on-top siblings when it is not one). -/
def toFront (mml : Bool) (fuel : Nat) (g : Gui) (c : Nat) (setAsForeground : Bool) : Gui :=
  let g := checkMM mml g
  if (g.comps c).hasHeavyweightPeerFlag then
    let g := logEvent g (.notify "peerToFront" c)
    if setAsForeground then logEvent g (.notify "grabKeyboardFocus" c) else g
  else
    match (g.comps c).parentComponent with
    | none => g
    | some p =>
        let cl := (g.comps p).childComponentList
        let g :=
          if cl.getLast? = some c then g
          else
            let index := juceIndexOf cl c
            if 0 ≤ index then
              let insertIndex : Int :=
                if ! (g.comps c).alwaysOnTopFlag then
                  match cl.length with
                  | 0 => -1
                  | n + 1 => (toFrontScan g cl n : Int)
                else -1
              moveChildInternal mml fuel g p index insertIndex
            else g
        if setAsForeground then
          logEvent (internalBroughtToFront fuel g c) (.notify "grabKeyboardFocus" c)
        else g

/-- Increasing scan of `toBack`: from the front of the child list, step up over
children that are not always-on-top. -/
def toBackScan (g : Gui) (cl : List Nat) (i : Nat) : Nat → Nat
  | 0 => i
  | fuel + 1 =>
      if decide (i < cl.length) && ! (g.comps (cl.getD i 0)).alwaysOnTopFlag then
        toBackScan g cl (i + 1) fuel
      else i

/-- `Component::toBack()`: a `jassertfalse` on a desktop component (native
z-order changes are unimplemented there); otherwise move this child to the
bottom of its parent's list (after the always-on-top prefix when it is one). -/
def toBack (mml : Bool) (fuel : Nat) (g : Gui) (c : Nat) : Gui :=
  if (g.comps c).hasHeavyweightPeerFlag then recordAssert g
  else
    match (g.comps c).parentComponent with
    | none => g
    | some p =>
        let cl := (g.comps p).childComponentList
        if cl.head? = some c then g
        else
          let index := juceIndexOf cl c
          if 0 < index then
            let insertIndex : Int :=
              if (g.comps c).alwaysOnTopFlag then (toBackScan g cl 0 cl.length : Int)
              else 0
            moveChildInternal mml fuel g p index insertIndex
          else g

/-- `Component::userTriedToCloseWindow()`: the default implementation only
raises a `jassertfalse`. -/
def userTriedToCloseWindow (g : Gui) : Gui :=
  recordAssert g

/-- `Component::addToDesktop (styleWanted, nativeWindowToAttachTo)`: force the
semi-transparency style bit to match the component's opacity, and unless the
component already has a peer with exactly these style flags, detach it from any
parent, give it a fresh peer with the wanted style at its old screen position,
and register it with the desktop (`Desktop::addDesktopComponent`, modelled from
the spec as appending to the list).  Peer fullscreen/minimised state and the
platform window itself are outside the model. -/
def addToDesktop (mml : Bool) (fuel : Nat) (g : Gui) (c : Nat) (styleWanted0 : WindowStyle) : Gui :=
  let g := checkMM mml g
  let styleWanted : WindowStyle :=
    { styleWanted0 with semiTransparent := ! (g.comps c).opaqueFlag }
  let currentStyleFlags := ((g.comps c).peerStyle).getD ⟨false, 0⟩
  if styleWanted = currentStyleFlags ∧ (g.comps c).hasHeavyweightPeerFlag then g
  else
    let topLeft := getScreenPosition g c fuel
    let hadPeer := ((g.comps c).peerStyle).isSome
    let g :=
      if hadPeer then
        setTopLeftPosition mml fuel (removeFromDesktop mml g c) c topLeft.x topLeft.y
      else g
    let g :=
      match (g.comps c).parentComponent with
      | some p => removeChildComponent mml fuel g p c
      | none => g
    let g := updateComp g c fun co =>
      { co with hasHeavyweightPeerFlag := true, peerStyle := some styleWanted }
    let g := { g with desktopComps := g.desktopComps ++ [c] }
    let g := updateComp g c fun co => { co with boundsX := topLeft.x, boundsY := topLeft.y }
    let g := logEvent g (.notify "peerSetBounds" c)
    let g := logEvent g (.notify "peerSetVisible" c)
    let g :=
      if (g.comps c).alwaysOnTopFlag then logEvent g (.notify "peerSetAlwaysOnTop" c) else g
    let g := repaintAll mml fuel g c
    internalHierarchyChanged g c fuel

/-- `Component::enterModalState (shouldTakeKeyboardFocus, callback,
deleteWhenDismissed)`: asserts against a component that is already modal, and
unless it is the active modal component, starts it on the modal stack, attaches
the callbacks, raises its modal flag, shows it and optionally focuses it. -/
def enterModalState (mml : Bool) (fuel : Nat) (g : Gui) (c : Nat)
    (shouldTakeKeyboardFocus deleteWhenDismissed : Bool) : Gui :=
  let g := checkMM mml g
  let g := if (g.comps c).currentlyModalFlag then recordAssert g else g
  if isCurrentlyModal g c then g
  else
    let g := { g with modalStack := c :: g.modalStack }
    let g := logEvent g (.notify "attachCallback" c)
    let g :=
      if deleteWhenDismissed then logEvent g (.notify "attachAutoDeleteCallback" c) else g
    let g := updateComp g c fun co => { co with currentlyModalFlag := true }
    let g := setVisible mml fuel g c true
    if shouldTakeKeyboardFocus then logEvent g (.notify "grabKeyboardFocus" c) else g

/-- `Component::exitModalState (returnValue)` on the message thread (the model
is single-threaded): end the modal state (`ModalComponentManager::endModal`,
modelled from the spec as removing the component's stack entry), drop the flag
and re-front the remaining modal components. -/
def exitModalState (g : Gui) (c : Nat) (_returnValue : Int) : Gui :=
  if (g.comps c).currentlyModalFlag then
    let g := { g with modalStack := g.modalStack.erase c }
    let g := updateComp g c fun co => { co with currentlyModalFlag := false }
    logEvent g (.notify "bringModalComponentsToFront" c)
  else g

/-- `Component::addComponentListener`: `ListenerList::add` appends the listener
when it is not already registered (modelled from the spec for the library
`ListenerList`). -/
def addComponentListener (mml : Bool) (g : Gui) (c : Nat) (l : Nat) : Gui :=
  let g := checkMM mml g
  updateComp g c fun co =>
    { co with componentListeners :=
        if l ∈ co.componentListeners then co.componentListeners
        else co.componentListeners ++ [l] }

/-- `Component::MouseListenerList::addListener`: deep listeners go to the front
of the array (counted by `numDeepMouseListeners`), others to the back. -/
def mouseListenerListAddListener (ml : MouseListenerListState) (l : Nat)
    (wantsEventsForAllNestedChildComponents : Bool) : MouseListenerListState :=
  if l ∈ ml.listeners then ml
  else if wantsEventsForAllNestedChildComponents then
    { listeners := l :: ml.listeners
      numDeepMouseListeners := ml.numDeepMouseListeners + 1 }
  else { ml with listeners := ml.listeners ++ [l] }

/-- `Component::MouseListenerList::removeListener`. -/
def mouseListenerListRemoveListener (ml : MouseListenerListState) (l : Nat) :
    MouseListenerListState :=
  let index := juceIndexOf ml.listeners l
  if 0 ≤ index then
    { listeners := juceRemoveIdx ml.listeners index
      numDeepMouseListeners :=
        if index < ml.numDeepMouseListeners then ml.numDeepMouseListeners - 1
        else ml.numDeepMouseListeners }
  else ml

/-- `Component::addMouseListener (newListener,
wantsEventsForAllNestedChildComponents)`: asserts against a component
registering itself shallowly, creates the listener list on demand and adds the
listener. -/
def addMouseListener (mml : Bool) (g : Gui) (c : Nat) (l : Nat)
    (wantsEventsForAllNestedChildComponents : Bool) : Gui :=
  let g := checkMM mml g
  let g :=
    if l = c && ! wantsEventsForAllNestedChildComponents then recordAssert g else g
  updateComp g c fun co =>
    let ml := mouseListenerListAddListener (co.mouseListeners.getD ⟨[], 0⟩) l
      wantsEventsForAllNestedChildComponents
    { co with mouseListeners := some ml }

/-- `Component::removeMouseListener`. -/
def removeMouseListener (mml : Bool) (g : Gui) (c : Nat) (l : Nat) : Gui :=
  let g := checkMM mml g
  updateComp g c fun co =>
    { co with mouseListeners := co.mouseListeners.map (mouseListenerListRemoveListener · l) }

/-- `Component::internalModalInputAttempt()`: route the input attempt to the
currently modal component's `inputAttemptWhenModal()`.  The virtual is given as
`eff` (the base implementation brings the modal components to the front and
plays the alert sound, touching no modelled field; an override may, for
example, exit the modal state). -/
def internalModalInputAttempt (eff : Nat → Gui → Gui) (g : Gui) : Gui :=
  match getCurrentlyModalComponent g with
  | none => g
  | some current => eff current (logEvent g (.inputAttemptWhenModalEvent current))

/-- The bring-to-front-on-click walk at the start of the unblocked
`internalMouseDown` path: climb from the clicked component, fronting every
component with the flag, abandoning the walk when a callback deletes the
clicked component.  The returned flag says whether the source `return`ed. -/
def bringToFrontOnClickWalk (mml : Bool) (fuel : Nat) (g : Gui) (self : Nat) :
    Option Nat → Nat → Gui × Bool
  | none, _ => (g, false)
  | some _, 0 => (g, false)
  | some c, n + 1 =>
      if (g.comps c).bringToFrontOnClickFlag then
        let g' := toFront mml fuel g c true
        if shouldBailOut g' self then (g', true)
        else bringToFrontOnClickWalk mml fuel g' self ((g'.comps c).parentComponent) n
      else bringToFrontOnClickWalk mml fuel g self ((g.comps c).parentComponent) n

/-- Deep-mouse-listener walk of `Component::MouseListenerList::sendMouseEvent`:
for each ancestor, deliver to its first `numDeepMouseListeners` listeners from
the last to the first. -/
def deepMouseListenerWalk (g : Gui) : Option Nat → Nat → Gui
  | none, _ => g
  | some _, 0 => g
  | some p, fuel + 1 =>
      let g :=
        match (g.comps p).mouseListeners with
        | some ml =>
            if 0 < ml.numDeepMouseListeners then
              ((ml.listeners.take ml.numDeepMouseListeners.toNat).reverse).foldl
                (fun acc l => logEvent acc (.mouseListenerMouseDown l)) g
            else g
        | none => g
      deepMouseListenerWalk g ((g.comps p).parentComponent) fuel

/-- `Component::MouseListenerList::sendMouseEvent` for `mouseDown`: nothing if
the checker already bailed, else this component's listeners from the last to
the first, then each ancestor's deep listeners. -/
def sendMouseEventDown (g : Gui) (c : Nat) (fuel : Nat) : Gui :=
  if shouldBailOut g c then g
  else
    let g :=
      match (g.comps c).mouseListeners with
      | some ml =>
          (ml.listeners.reverse).foldl (fun acc l => logEvent acc (.mouseListenerMouseDown l)) g
      | none => g
    deepMouseListenerWalk g ((g.comps c).parentComponent) fuel

/-- The unblocked tail of `Component::internalMouseDown`: front the
bring-to-front-on-click ancestors, grab focus unless refused, raise the
mouse-down/over flags, repaint on mouse activity when asked, deliver the
`mouseDown` callback (empty in the base class), then the desktop's global
mouse listeners and the registered mouse listeners. -/
def internalMouseDownRest (mml : Bool) (fuel : Nat) (g : Gui) (c : Nat) : Gui :=
  let st := bringToFrontOnClickWalk mml fuel g c (some c) fuel
  if st.2 then st.1
  else
    let g := st.1
    let focusing := ! (g.comps c).dontFocusOnMouseClickFlag
    let g := if focusing then logEvent g (.notify "grabFocusInternal" c) else g
    if focusing && shouldBailOut g c then g
    else
      let g := updateComp g c fun co => { co with mouseDownFlag := true, mouseOverFlag := true }
      let g := if (g.comps c).repaintOnMouseActivityFlag then repaintAll mml fuel g c else g
      let g := logEvent g (.mouseDownCallback c)
      if shouldBailOut g c then g
      else
        let g := logEvent g (.desktopMouseDown c)
        sendMouseEventDown g c fuel

/-- `Component::internalMouseDown (source, relativePos, time)`: when blocked by
another modal component, route the attempt to it; if that exited the modal
loop, deliver normally, and otherwise only let the desktop's global listeners
see the event. -/
def internalMouseDown (mml : Bool) (fuel : Nat) (eff : Nat → Gui → Gui)
    (g : Gui) (c : Nat) : Gui :=
  if isCurrentlyBlockedByAnotherModalComponent g c fuel then
    let g1 := internalModalInputAttempt eff g
    if shouldBailOut g1 c then g1
    else if isCurrentlyBlockedByAnotherModalComponent g1 c fuel then
      logEvent g1 (.desktopMouseDown c)
    else internalMouseDownRest mml fuel g1 c
  else internalMouseDownRest mml fuel g c

/-! ## Operation sequences

The claims about invariants quantify over arbitrary call sequences; `Op` is one
call of a modelled public operation, and `applyOp`/`applyOps` run them.  The
`inputAttemptWhenModal` virtual of `internalMouseDown` is run with its
base-class behaviour here. -/

/-- One public operation call (the last argument(s) of each constructor are the
C++ call's arguments; the first is the receiver component). -/
inductive Op where
  | opSetName (c : Nat) (name : String)
  | opSetVisible (c : Nat) (b : Bool)
  | opAddToDesktop (c : Nat) (style : WindowStyle)
  | opRemoveFromDesktop (c : Nat)
  | opSetBounds (c : Nat) (x y w h : Int)
  | opSetTopLeftPosition (c : Nat) (x y : Int)
  | opAddChildComponent (p : Nat) (child : Option Nat) (zOrder : Int)
  | opRemoveChildComponentIdx (p : Nat) (index : Int)
  | opRemoveChildComponent (p : Nat) (child : Nat)
  | opToFront (c : Nat) (setAsForeground : Bool)
  | opToBack (c : Nat)
  | opEnterModalState (c : Nat) (takeFocus del : Bool)
  | opExitModalState (c : Nat) (returnValue : Int)
  | opAddComponentListener (c : Nat) (l : Nat)
  | opAddMouseListener (c : Nat) (l : Nat) (deep : Bool)
  | opRemoveMouseListener (c : Nat) (l : Nat)
  | opInternalRepaint (c : Nat) (x y w h : Int)
  | opInternalMouseDown (c : Nat)
  | opUserTriedToCloseWindow (c : Nat)

/-- Run one operation (with the given lock state and fuel). -/
def applyOp (mml : Bool) (fuel : Nat) (g : Gui) : Op → Gui
  | .opSetName c name => setName mml g c name
  | .opSetVisible c b => setVisible mml fuel g c b
  | .opAddToDesktop c style => addToDesktop mml fuel g c style
  | .opRemoveFromDesktop c => removeFromDesktop mml g c
  | .opSetBounds c x y w h => setBounds mml fuel g c x y w h
  | .opSetTopLeftPosition c x y => setTopLeftPosition mml fuel g c x y
  | .opAddChildComponent p child zOrder => addChildComponent mml fuel g p child zOrder
  | .opRemoveChildComponentIdx p index => (removeChildComponentIdx mml fuel g p index true true).1
  | .opRemoveChildComponent p child => removeChildComponent mml fuel g p child
  | .opToFront c b => toFront mml fuel g c b
  | .opToBack c => toBack mml fuel g c
  | .opEnterModalState c tf del => enterModalState mml fuel g c tf del
  | .opExitModalState c rv => exitModalState g c rv
  | .opAddComponentListener c l => addComponentListener mml g c l
  | .opAddMouseListener c l deep => addMouseListener mml g c l deep
  | .opRemoveMouseListener c l => removeMouseListener mml g c l
  | .opInternalRepaint c x y w h => internalRepaint mml g c x y w h fuel
  | .opInternalMouseDown c => internalMouseDown mml fuel (fun _ h => h) g c
  | .opUserTriedToCloseWindow _ => userTriedToCloseWindow g

/-- Run a sequence of operations. -/
def applyOps (mml : Bool) (fuel : Nat) (g : Gui) : List Op → Gui
  | [] => g
  | op :: rest => applyOps mml fuel (applyOp mml fuel g op) rest

/-! ## Hit testing (`Component::getComponentAt`)

Hit testing only reads the tree, so here a component is an inductive tree node
(children nested in z-order, the last entry topmost) and `getComponentAt`
returns the hit subtree instead of a pointer.  The virtual
`Component::hitTest (x, y)` (default: always true) is the `hitTestFn` field. -/

/-- A component subtree: visibility, position, size, the `hitTest` virtual, the
optional transform and the child list. -/
inductive CompTree where
  | node (visibleFlag : Bool) (pos : Point) (width height : Int)
      (hitTestFn : Int → Int → Bool) (affineTransform : Option AffineMap)
      (childComponentList : List CompTree)

/-- Visibility flag of the root. -/
def CompTree.visibleFlag : CompTree → Bool
  | .node v _ _ _ _ _ _ => v

/-- Position of the root within its parent. -/
def CompTree.pos : CompTree → Point
  | .node _ p _ _ _ _ _ => p

/-- Width of the root. -/
def CompTree.width : CompTree → Int
  | .node _ _ w _ _ _ _ => w

/-- Height of the root. -/
def CompTree.height : CompTree → Int
  | .node _ _ _ h _ _ _ => h

/-- The `hitTest` virtual of the root. -/
def CompTree.hitTestFn : CompTree → Int → Int → Bool
  | .node _ _ _ _ ht _ _ => ht

/-- Transform of the root. -/
def CompTree.affineTransform : CompTree → Option AffineMap
  | .node _ _ _ _ _ tf _ => tf

/-- Child list of the root. -/
def CompTree.childComponentList : CompTree → List CompTree
  | .node _ _ _ _ _ _ cs => cs

/-- `Component::ComponentHelpers::hitTest (comp, localPoint)`: inside the local
bounds and accepted by the `hitTest` virtual. -/
def CompTree.hitTestAt (c : CompTree) (p : Point) : Bool :=
  isPositiveAndBelow p.x c.width && isPositiveAndBelow p.y c.height && c.hitTestFn p.x p.y

/-- `Component::ComponentHelpers::convertFromParentSpace` on a tree node (same
source lines as `Comp.convertFromParentSpace`). -/
def CompTree.convertFromParentSpacePt (c : CompTree) (pointInParentSpace : Point) : Point :=
  match c.affineTransform with
  | none => pointInParentSpace.sub c.pos
  | some t => (t.inv pointInParentSpace).sub c.pos

mutual

/-- `Component::getComponentAt (position)`: null unless visible and hit; then
the first child (scanning indices `size - 1` down to `0`) whose recursive
search of the converted point succeeds, the component itself otherwise. -/
def CompTree.getComponentAt : CompTree → Point → Option CompTree
  | .node v pos w h ht tf children, p =>
      if v && (CompTree.node v pos w h ht tf children).hitTestAt p then
        match CompTree.searchChildrenFromEnd children p with
        | some hit => some hit
        | none => some (.node v pos w h ht tf children)
      else none

/-- The child loop of `getComponentAt`: the source scans the child array from
the last index down to the first, which is expressed here by giving the tail of
the list (the later, topmost entries) priority over the head. -/
def CompTree.searchChildrenFromEnd : List CompTree → Point → Option CompTree
  | [], _ => none
  | child :: rest, p =>
      match CompTree.searchChildrenFromEnd rest p with
      | some hit => some hit
      | none => child.getComponentAt (child.convertFromParentSpacePt p)

end

/-! ## The reentrant dispatch loops

The three dispatch sites named by the spec — `MouseListenerList::sendMouseEvent`,
`Component::sendMovedResizedMessages` and `Component::internalHierarchyChanged`
— guard their listener callbacks with `BailOutChecker`s because a callback may
delete the dispatching component (or mutate the listener and child lists).
Here the callbacks are an arbitrary effect `eff` on a dispatch state, and every
invocation is recorded in a trace together with the checker's status at the
moment of the call; the verified property is that a recorded status is never
`true`.  Loop indices are re-clamped after every callback exactly as in the
source (`i = jmin (i, ...)`). -/

/-- The mutable state the dispatch loops read: parent pointers, child lists,
the two listener lists and the set of deleted components. -/
structure DState where
  parentOf : Nat → Option Nat
  childrenOf : Nat → List Nat
  compListenersOf : Nat → List Nat
  mouseListOf : Nat → Option MouseListenerListState
  deleted : List Nat

/-- One callback invocation (which virtual or listener method is called, and on
what). -/
inductive Callback where
  | mouseCb (listener : Nat)
  | movedCb (c : Nat)
  | resizedCb (c : Nat)
  | parentSizeChangedCb (child : Nat)
  | childBoundsChangedCb (parent : Nat) (child : Nat)
  | compListenerCb (listener : Nat) (c : Nat)
  | parentHierarchyChangedCb (c : Nat)
deriving DecidableEq, Repr

/-- A trace of invocations, each tagged with the dispatching component's
bail-out status at the moment the callback was entered. -/
abbrev DTrace := List (Bool × Callback)

/-- `BailOutChecker::shouldBailOut()` in the dispatch model. -/
def dBail (s : DState) (c : Nat) : Bool :=
  c ∈ s.deleted

/-- Run one callback through `eff`, recording the watched component's current
bail-out status. -/
def invokeCb (eff : Callback → DState → DState) (watch : Nat) (cb : Callback)
    (s : DState) (tr : DTrace) : DState × DTrace :=
  (eff cb s, tr ++ [(dBail s watch, cb)])

/-- Result of a loop that may `return` early. -/
structure DRun where
  st : DState
  tr : DTrace
  early : Bool

/-- The listeners of a component's mouse-listener list (empty when the list was
never created). -/
def mouseListenersOf (s : DState) (c : Nat) : List Nat :=
  ((s.mouseListOf c).map (·.listeners)).getD []

/-- The `numDeepMouseListeners` of a component (zero when the list was never
created). -/
def numDeepOf (s : DState) (c : Nat) : Int :=
  ((s.mouseListOf c).map (·.numDeepMouseListeners)).getD 0

/-- Own-listener loop of `MouseListenerList::sendMouseEvent`
(`for (int i = list->listeners.size(); --i >= 0;)` with
`i = jmin (i, list->listeners.size())` after each call): the argument is the
loop variable before the pre-decrement. -/
def mouseOwnLoop (eff : Callback → DState → DState) (comp : Nat) :
    DState → DTrace → Nat → DRun
  | s, tr, 0 => ⟨s, tr, false⟩
  | s, tr, i + 1 =>
      let target := (mouseListenersOf s comp).getD i 0
      let r := invokeCb eff comp (.mouseCb target) s tr
      if dBail r.1 comp then ⟨r.1, r.2, true⟩
      else mouseOwnLoop eff comp r.1 r.2 (min i (mouseListenersOf r.1 comp).length)

/-- Deep-listener loop of `sendMouseEvent` for one ancestor `p`
(`for (int i = list->numDeepMouseListeners; --i >= 0;)`, guarded by the
two-component `BailOutChecker2`). -/
def mouseDeepLoop (eff : Callback → DState → DState) (comp p : Nat) :
    DState → DTrace → Nat → DRun
  | s, tr, 0 => ⟨s, tr, false⟩
  | s, tr, i + 1 =>
      let target := (mouseListenersOf s p).getD i 0
      let r := invokeCb eff comp (.mouseCb target) s tr
      if dBail r.1 comp || dBail r.1 p then ⟨r.1, r.2, true⟩
      else mouseDeepLoop eff comp p r.1 r.2 (min i (numDeepOf r.1 p).toNat)

/-- Parent walk of `sendMouseEvent`: visit each ancestor that has deep
listeners. -/
def mouseParentWalk (eff : Callback → DState → DState) (comp : Nat) :
    Option Nat → DState → DTrace → Nat → DRun
  | none, s, tr, _ => ⟨s, tr, false⟩
  | some _, s, tr, 0 => ⟨s, tr, false⟩
  | some p, s, tr, fuel + 1 =>
      if 0 < numDeepOf s p then
        let r := mouseDeepLoop eff comp p s tr (numDeepOf s p).toNat
        if r.early then r
        else mouseParentWalk eff comp (r.st.parentOf p) r.st r.tr fuel
      else mouseParentWalk eff comp (s.parentOf p) s tr fuel

/-- `MouseListenerList::sendMouseEvent (comp, checker, eventMethod, e)`: bail
immediately if the checker already fired, else this component's listeners from
the last to the first, then every ancestor's deep listeners. -/
def sendMouseEventDispatch (eff : Callback → DState → DState) (comp : Nat)
    (s : DState) (fuel : Nat) : DRun :=
  if dBail s comp then ⟨s, [], true⟩
  else
    let r := mouseOwnLoop eff comp s [] (mouseListenersOf s comp).length
    if r.early then r
    else mouseParentWalk eff comp (r.st.parentOf comp) r.st r.tr fuel

/-- `ListenerList::callChecked` (modelled from the spec for the library
`ListenerList`): deliver to each listener of the snapshot unless the checker
has fired. -/
def callCheckedLoop (eff : Callback → DState → DState) (comp : Nat)
    (mk : Nat → Callback) : List Nat → DState → DTrace → DState × DTrace
  | [], s, tr => (s, tr)
  | l :: rest, s, tr =>
      if dBail s comp then (s, tr)
      else
        let r := invokeCb eff comp (mk l) s tr
        callCheckedLoop eff comp mk rest r.1 r.2

/-- Child loop of `sendMovedResizedMessages`
(`childComponentList.getUnchecked(i)->parentSizeChanged()` from the last index
down, re-clamped after each call). -/
def parentSizeChangedLoop (eff : Callback → DState → DState) (comp : Nat) :
    DState → DTrace → Nat → DRun
  | s, tr, 0 => ⟨s, tr, false⟩
  | s, tr, i + 1 =>
      let target := (s.childrenOf comp).getD i 0
      let r := invokeCb eff comp (.parentSizeChangedCb target) s tr
      if dBail r.1 comp then ⟨r.1, r.2, true⟩
      else parentSizeChangedLoop eff comp r.1 r.2 (min i (r.1.childrenOf comp).length)

/-- `Component::sendMovedResizedMessages (wasMoved, wasResized)` in the
dispatch model: `moved()`, `resized()`, the children's `parentSizeChanged()`,
the parent's `childBoundsChanged` and the `componentMovedOrResized` listeners,
abandoning the dispatch as soon as the checker fires. -/
def movedResizedDispatch (eff : Callback → DState → DState) (comp : Nat)
    (wasMoved wasResized : Bool) (s : DState) : DRun :=
  let r1 : DState × DTrace :=
    if wasMoved then invokeCb eff comp (.movedCb comp) s [] else (s, [])
  if wasMoved && dBail r1.1 comp then ⟨r1.1, r1.2, true⟩
  else
    let r2 : DState × DTrace :=
      if wasResized then invokeCb eff comp (.resizedCb comp) r1.1 r1.2 else r1
    if wasResized && dBail r2.1 comp then ⟨r2.1, r2.2, true⟩
    else
      let r3 : DRun :=
        if wasResized then
          parentSizeChangedLoop eff comp r2.1 r2.2 (r2.1.childrenOf comp).length
        else ⟨r2.1, r2.2, false⟩
      if r3.early then r3
      else
        let r4 : DState × DTrace :=
          match r3.st.parentOf comp with
          | some p => invokeCb eff comp (.childBoundsChangedCb p comp) r3.st r3.tr
          | none => (r3.st, r3.tr)
        if dBail r4.1 comp then ⟨r4.1, r4.2, false⟩
        else
          let r5 := callCheckedLoop eff comp (fun l => .compListenerCb l comp)
            (r4.1.compListenersOf comp) r4.1 r4.2
          ⟨r5.1, r5.2, false⟩

mutual

/-- `Component::internalHierarchyChanged()` in the dispatch model:
`parentHierarchyChanged()`, the listener callbacks, then recursion into the
children from the last index down (each child dispatch watching its own
liveness), abandoning the loop when the checker fires. -/
def hierarchyDispatch (eff : Callback → DState → DState) (comp : Nat)
    (s : DState) (tr : DTrace) (fuel : Nat) : DState × DTrace :=
  match fuel with
  | 0 => (s, tr)
  | fuel + 1 =>
      let r1 := invokeCb eff comp (.parentHierarchyChangedCb comp) s tr
      if dBail r1.1 comp then r1
      else
        let r2 := callCheckedLoop eff comp (fun l => .compListenerCb l comp)
          (r1.1.compListenersOf comp) r1.1 r1.2
        if dBail r2.1 comp then r2
        else hierarchyChildLoopD eff comp r2.1 r2.2 ((r2.1.childrenOf comp).length) fuel
termination_by (fuel, 0, 0)

/-- Child loop of `internalHierarchyChanged` in the dispatch model. -/
def hierarchyChildLoopD (eff : Callback → DState → DState) (comp : Nat)
    (s : DState) (tr : DTrace) (i : Nat) (fuel : Nat) : DState × DTrace :=
  match i with
  | 0 => (s, tr)
  | i + 1 =>
      let child := (s.childrenOf comp).getD i 0
      let r := hierarchyDispatch eff child s tr fuel
      if dBail r.1 comp then r
      else hierarchyChildLoopD eff comp r.1 r.2 (min i (r.1.childrenOf comp).length) fuel
termination_by (fuel, 1, i)

end

/-- Every recorded invocation of a trace was entered with the checker still
quiet. -/
def allQuiet (tr : DTrace) : Prop :=
  ∀ e ∈ tr, e.1 = false

/-- Consistency of a dispatch state with component destruction: a destroyed
component's destructor unlinks it from its parent's child list, so child lists
never hold deleted components. -/
def DInv (s : DState) : Prop :=
  ∀ p c, c ∈ s.childrenOf p → c ∉ s.deleted

/-- The callbacks respect destruction consistency (deleting a component goes
through its destructor, which unlinks it). -/
def EffOk (eff : Callback → DState → DState) : Prop :=
  ∀ cb s, DInv s → DInv (eff cb s)

/-- Every component's stored width and height are nonnegative. -/
def SizesOK (g : Gui) : Prop :=
  ∀ c, 0 ≤ (g.comps c).boundsW ∧ 0 ≤ (g.comps c).boundsH

/-- The tree-shape invariant: every child list is duplicate-free, and child
lists agree with parent pointers in both directions (so a component is in at
most one child list, at one position, exactly when its parent pointer says
so). -/
def WF (g : Gui) : Prop :=
  (∀ p, ((g.comps p).childComponentList).Nodup) ∧
  (∀ p c, c ∈ (g.comps p).childComponentList → (g.comps c).parentComponent = some p) ∧
  (∀ c p, (g.comps c).parentComponent = some p → c ∈ (g.comps p).childComponentList)

/-! Concrete fixtures used by the witnesses. -/

/-- A state with component `1` modal (entered from the pristine state). -/
def modalFixture : Gui :=
  enterModalState true 3 initGui 1 false false

/-- A state with two modal components: `1` entered first, `0` on top of it, so
component `1` still has its modal flag but is no longer the active modal
component. -/
def modalFixture2 : Gui :=
  enterModalState true 3 modalFixture 0 false false

/-- A state with component `2` on the desktop (a heavyweight component). -/
def desktopFixture : Gui :=
  addToDesktop true 3 initGui 2 ⟨false, 0⟩

/-- A three-component chain built with `addChildComponent`: `0` is the parent
of `1`, which is the parent of `2`. -/
def chainFixture : Gui :=
  addChildComponent true 3 (addChildComponent true 3 initGui 0 (some 1) (-1)) 1 (some 2) (-1)

/-- A two-child tree fixture for the hit-testing witness: a visible 100 by 100
root holding a lower-left and an upper-right visible 10 by 10 child. -/
def treeFixture : CompTree :=
  .node true ⟨0, 0⟩ 100 100 (fun _ _ => true) none
    [.node true ⟨0, 0⟩ 10 10 (fun _ _ => true) none [],
     .node true ⟨50, 50⟩ 10 10 (fun _ _ => true) none []]

/-- A dispatch state with one live component `0` that has one child `1`, one
mouse listener and one component listener, and nothing deleted. -/
def dispatchFixture : DState where
  parentOf := fun c => if c = 1 then some 0 else none
  childrenOf := fun c => if c = 0 then [1] else []
  compListenersOf := fun c => if c = 0 then [7] else []
  mouseListOf := fun c => if c = 0 then some ⟨[5], 0⟩ else none
  deleted := []

end Automello

namespace Automello

/-! Round-trip lemmas for the `'|'`-tokenisation. -/

theorem splitBar_barFree (p : Path) (hp : '|' ∉ p) : splitBar p = [p] := by
  induction p with
  | nil => rfl
  | cons c rest ih =>
      have hc : ¬ c = '|' := fun h => hp (h ▸ List.mem_cons_self c rest)
      have hrest : '|' ∉ rest := fun h => hp (List.mem_cons_of_mem c h)
      simp [splitBar, hc, ih hrest]

theorem splitBar_append (p : Path) (xs : Path) (hp : '|' ∉ p) :
    splitBar (p ++ '|' :: xs) = p :: splitBar xs := by
  induction p with
  | nil => simp [splitBar]
  | cons c rest ih =>
      have hc : ¬ c = '|' := fun h => hp (h ▸ List.mem_cons_self c rest)
      have hrest : '|' ∉ rest := fun h => hp (List.mem_cons_of_mem c h)
      simp [splitBar, hc, ih hrest]

theorem splitBar_joinBar (files : List Path) (hfiles : ∀ p ∈ files, '|' ∉ p)
    (hne : files ≠ []) : splitBar (joinBar files) = files := by
  induction files with
  | nil => cases hne rfl
  | cons p rest ih =>
      cases rest with
      | nil => exact splitBar_barFree p (hfiles p (List.mem_cons_self p []))
      | cons q rest' =>
          have hp : '|' ∉ p := hfiles p (List.mem_cons_self p _)
          have hrest : ∀ r ∈ q :: rest', '|' ∉ r := fun r hr =>
            hfiles r (List.mem_cons_of_mem p hr)
          have : joinBar (p :: q :: rest') = p ++ '|' :: joinBar (q :: rest') := rfl
          rw [this, splitBar_append p _ hp, ih hrest (by simp)]

end Automello

namespace Automello

/-! ## Claim C2: parent-space conversions are mutual inverses -/

/-- C2: for every component whose affine transform is unset and every integer
point, `convertToParentSpace` is translation by plus the position,
`convertFromParentSpace` is translation by minus the position, and the two are
mutual inverses. -/
theorem claim_C2_parent_space_conversions (comp : Comp) (p : Point)
    (h : comp.affineTransform = none) :
    comp.convertToParentSpace p = p.add comp.getPosition ∧
    comp.convertFromParentSpace p = p.sub comp.getPosition ∧
    comp.convertFromParentSpace (comp.convertToParentSpace p) = p ∧
    comp.convertToParentSpace (comp.convertFromParentSpace p) = p := by
  cases p with
  | mk px py =>
      refine ⟨?_, ?_, ?_, ?_⟩ <;>
        simp [Comp.convertToParentSpace, Comp.convertFromParentSpace, h,
          Point.add, Point.sub, Comp.getPosition]

/-- Witness for C2: the default-constructed component has no transform, and the
conversions invert each other at the point `(3, 4)`. -/
theorem claim_C2_witness :
    Comp.convertFromParentSpace defaultComp (Comp.convertToParentSpace defaultComp ⟨3, 4⟩)
      = ⟨3, 4⟩ :=
  (claim_C2_parent_space_conversions defaultComp ⟨3, 4⟩ rfl).2.2.1

/-! ## Claim C7: the last-projects round trip -/

theorem joinBar_ne_nil (files : List Path) (h0 : files ≠ []) (h1 : files ≠ [[]]) :
    joinBar files ≠ [] := by
  match files with
  | [] => exact absurd rfl h0
  | [p] =>
      intro hp
      exact h1 (by simpa [joinBar] using hp)
  | p :: q :: rest =>
      intro hp
      cases p <;> simp [joinBar] at hp

/-- C7 (amended): the round trip holds, except for the single array `[file]`
whose one path is empty (its joined value is the empty string, which tokenises
back to no entries). -/
theorem claim_C7_lastProjects_roundtrip (props : Props) (files : List Path)
    (hbar : ∀ p ∈ files, '|' ∉ p) (hne : files ≠ [[]]) :
    getLastProjects (setLastProjects props files) = files := by
  have hv : (setLastProjects props files) "lastProjects" = joinBar files := by
    simp [setLastProjects, Props.setValue]
  unfold getLastProjects addTokensBar
  rw [hv]
  by_cases hf : files = []
  · subst hf; simp [joinBar]
  · have hjoin : joinBar files ≠ [] := joinBar_ne_nil files hf hne
    simp only [hjoin, if_false]
    exact splitBar_joinBar files hbar hf

/-- C7 counterexample: the singleton array holding one empty-path file contains
no `'|'` anywhere, yet reads back as the empty array. -/
theorem claim_C7_counterexample :
    (∀ p ∈ ([[]] : List Path), '|' ∉ p) ∧
    getLastProjects (setLastProjects emptyProps [[]]) = [] := by
  constructor
  · intro p hp
    simp only [List.mem_singleton] at hp
    subst hp
    simp
  · decide

/-- Witness for C7 at a concrete two-file array. -/
theorem claim_C7_witness :
    getLastProjects (setLastProjects emptyProps [['a'], ['b']]) = [['a'], ['b']] :=
  claim_C7_lastProjects_roundtrip emptyProps [['a'], ['b']] (by decide) (by decide)

end Automello

namespace Automello

/-! ## Claim C3: recursive hit testing -/

theorem searchChildrenFromEnd_eq_findSome (cs : List CompTree) (p : Point) :
    CompTree.searchChildrenFromEnd cs p =
      (cs.reverse).findSome? (fun ch => ch.getComponentAt (ch.convertFromParentSpacePt p)) := by
  induction cs with
  | nil => rfl
  | cons c rest ih =>
      rw [CompTree.searchChildrenFromEnd, ih, List.reverse_cons, List.findSome?_append]
      cases (rest.reverse).findSome?
          (fun ch => ch.getComponentAt (ch.convertFromParentSpacePt p)) with
      | none =>
          simp [List.findSome?, Option.orElse]
          cases c.getComponentAt (c.convertFromParentSpacePt p) <;> rfl
      | some hit => rfl

/-- C3: `getComponentAt` returns null exactly when the component is invisible
or the point fails the hit test; otherwise it returns the first non-null
recursive answer among the children scanned from the last (topmost) entry down
— each child asked about the point converted into its space — and the component
itself when no child answers. -/
theorem claim_C3_getComponentAt (c : CompTree) (p : Point) :
    (c.getComponentAt p = none ↔ ¬(c.visibleFlag = true ∧ c.hitTestAt p = true)) ∧
    (c.visibleFlag = true → c.hitTestAt p = true →
      c.getComponentAt p =
        some ((((c.childComponentList).reverse).findSome?
          (fun ch => ch.getComponentAt (ch.convertFromParentSpacePt p))).getD c)) := by
  cases c with
  | node v pos w h ht tf children =>
      rw [CompTree.getComponentAt]
      by_cases hv : v = true
      · subst hv
        by_cases hh : (CompTree.node true pos w h ht tf children).hitTestAt p = true
        · rw [← searchChildrenFromEnd_eq_findSome]
          simp only [hh, Bool.true_and, if_true, CompTree.visibleFlag,
            CompTree.childComponentList]
          constructor
          · cases hs : CompTree.searchChildrenFromEnd children p <;> simp [hs]
          · intro _ _
            cases hs : CompTree.searchChildrenFromEnd children p <;> simp [hs]
        · have hh' : (CompTree.node true pos w h ht tf children).hitTestAt p = false :=
            by revert hh; cases (CompTree.node true pos w h ht tf children).hitTestAt p <;> simp
          simp [hh', CompTree.visibleFlag]
      · have hv' : v = false := by revert hv; cases v <;> simp
        subst hv'
        simp [CompTree.visibleFlag]

/-- Witness for C3: in the two-child fixture, the point `(55, 55)` is resolved
to the topmost child that hits it. -/
theorem claim_C3_witness :
    treeFixture.getComponentAt ⟨55, 55⟩ =
      some ((((treeFixture.childComponentList).reverse).findSome?
        (fun ch => ch.getComponentAt (ch.convertFromParentSpacePt ⟨55, 55⟩))).getD treeFixture) :=
  (claim_C3_getComponentAt treeFixture ⟨55, 55⟩).2 rfl (by decide)

end Automello

namespace Automello

/-! ## Claim C10: the parent chain -/

theorem ancestorChain_succ_none {g : Gui} {c : Nat} (n : Nat)
    (hp : (g.comps c).parentComponent = none) :
    ancestorChain g c (n + 1) = [] := by
  rw [ancestorChain, hp]

theorem ancestorChain_succ_some {g : Gui} {c p : Nat} (n : Nat)
    (hp : (g.comps c).parentComponent = some p) :
    ancestorChain g c (n + 1) = p :: ancestorChain g p n := by
  rw [ancestorChain, hp]

theorem rootedIn_succ_none {g : Gui} {c : Nat} (n : Nat)
    (hp : (g.comps c).parentComponent = none) :
    rootedIn g c (n + 1) = true := by
  rw [rootedIn, hp]

theorem rootedIn_succ_some {g : Gui} {c p : Nat} (n : Nat)
    (hp : (g.comps c).parentComponent = some p) :
    rootedIn g c (n + 1) = rootedIn g p n := by
  rw [rootedIn, hp]

theorem getTopLevel_succ_none {g : Gui} {c : Nat} (n : Nat)
    (hp : (g.comps c).parentComponent = none) :
    getTopLevelComponent g c (n + 1) = c := by
  rw [getTopLevelComponent, hp]

theorem getTopLevel_succ_some {g : Gui} {c p : Nat} (n : Nat)
    (hp : (g.comps c).parentComponent = some p) :
    getTopLevelComponent g c (n + 1) = getTopLevelComponent g p n := by
  rw [getTopLevelComponent, hp]

theorem isParentOf_succ_none {g : Gui} {a c : Nat} (n : Nat)
    (hp : (g.comps c).parentComponent = none) :
    isParentOf g a (some c) (n + 1) = false := by
  rw [isParentOf, hp]

theorem isParentOf_succ_some {g : Gui} {a c p : Nat} (n : Nat)
    (hp : (g.comps c).parentComponent = some p) :
    isParentOf g a (some c) (n + 1) = (if p = a then true else isParentOf g a (some p) n) := by
  rw [isParentOf, hp]

theorem isParentOf_eq_mem_chain (g : Gui) (a : Nat) :
    ∀ fuel c, isParentOf g a (some c) fuel = true ↔ a ∈ ancestorChain g c fuel := by
  intro fuel
  induction fuel with
  | zero => intro c; simp [isParentOf, ancestorChain]
  | succ n ih =>
      intro c
      cases hp : (g.comps c).parentComponent with
      | none => rw [isParentOf_succ_none n hp, ancestorChain_succ_none n hp]; simp
      | some q =>
          rw [isParentOf_succ_some n hp, ancestorChain_succ_some n hp]
          by_cases hqa : q = a
          · subst hqa; simp
          · simp only [hqa, if_false, ih q, List.mem_cons]
            constructor
            · exact Or.inr
            · rintro (h | h)
              · exact absurd h.symm hqa
              · exact h

theorem rootedIn_mono (g : Gui) :
    ∀ n m c, n ≤ m → rootedIn g c n = true → rootedIn g c m = true := by
  intro n
  induction n with
  | zero => intro m c _ h; simp [rootedIn] at h
  | succ n ih =>
      intro m c hle h
      match m, hle with
      | m + 1, hle =>
          cases hp : (g.comps c).parentComponent with
          | none => exact rootedIn_succ_none m hp
          | some p =>
              rw [rootedIn_succ_some n hp] at h
              rw [rootedIn_succ_some m hp]
              exact ih m p (Nat.le_of_succ_le_succ hle) h

theorem ancestorChain_stable (g : Gui) :
    ∀ n m c, rootedIn g c n = true → n ≤ m →
      ancestorChain g c m = ancestorChain g c n := by
  intro n
  induction n with
  | zero => intro m c h _; simp [rootedIn] at h
  | succ n ih =>
      intro m c h hle
      match m, hle with
      | m + 1, hle =>
          cases hp : (g.comps c).parentComponent with
          | none => rw [ancestorChain_succ_none m hp, ancestorChain_succ_none n hp]
          | some p =>
              rw [rootedIn_succ_some n hp] at h
              rw [ancestorChain_succ_some m hp, ancestorChain_succ_some n hp,
                ih m p h (Nat.le_of_succ_le_succ hle)]

theorem rootedIn_of_mem_chain (g : Gui) :
    ∀ n c a, rootedIn g c n = true → a ∈ ancestorChain g c n → rootedIn g a n = true := by
  intro n
  induction n with
  | zero => intro c a _ hm; simp [ancestorChain] at hm
  | succ n ih =>
      intro c a h hm
      cases hp : (g.comps c).parentComponent with
      | none => rw [ancestorChain_succ_none n hp] at hm; simp at hm
      | some p =>
          rw [rootedIn_succ_some n hp] at h
          rw [ancestorChain_succ_some n hp] at hm
          rcases List.mem_cons.mp hm with h1 | h1
          · subst h1
            exact rootedIn_mono g n (n + 1) a (Nat.le_succ n) h
          · exact rootedIn_mono g n (n + 1) a (Nat.le_succ n) (ih p a h h1)

theorem chain_length_lt (g : Gui) :
    ∀ n c a, rootedIn g c n = true → a ∈ ancestorChain g c n →
      (ancestorChain g a n).length < (ancestorChain g c n).length := by
  intro n
  induction n with
  | zero => intro c a _ hm; simp [ancestorChain] at hm
  | succ n ih =>
      intro c a h hm
      cases hp : (g.comps c).parentComponent with
      | none => rw [ancestorChain_succ_none n hp] at hm; simp at hm
      | some p =>
          rw [rootedIn_succ_some n hp] at h
          rw [ancestorChain_succ_some n hp] at hm
          rw [ancestorChain_succ_some n hp]
          rcases List.mem_cons.mp hm with h1 | h1
          · subst h1
            rw [ancestorChain_stable g n (n + 1) a h (Nat.le_succ n)]
            simp
          · have hlt := ih p a h h1
            have hra : rootedIn g a n = true := rootedIn_of_mem_chain g n p a h h1
            rw [ancestorChain_stable g n (n + 1) a hra (Nat.le_succ n)]
            simp only [List.length_cons]
            omega

theorem not_self_mem_chain (g : Gui) (c n : Nat) (h : rootedIn g c n = true) :
    c ∉ ancestorChain g c n := fun hm =>
  absurd (chain_length_lt g n c c h hm) (lt_irrefl _)

theorem getTopLevel_spec (g : Gui) :
    ∀ n c, rootedIn g c n = true →
      getTopLevelComponent g c n = (c :: ancestorChain g c n).getLast (List.cons_ne_nil _ _) ∧
      (g.comps (getTopLevelComponent g c n)).parentComponent = none := by
  intro n
  induction n with
  | zero => intro c h; simp [rootedIn] at h
  | succ n ih =>
      intro c h
      cases hp : (g.comps c).parentComponent with
      | none =>
          rw [getTopLevel_succ_none n hp, ancestorChain_succ_none n hp]
          exact ⟨rfl, hp⟩
      | some p =>
          rw [rootedIn_succ_some n hp] at h
          rw [getTopLevel_succ_some n hp, ancestorChain_succ_some n hp]
          rcases ih p h with ⟨h1, h2⟩
          refine ⟨?_, h2⟩
          rw [h1, List.getLast_cons (List.cons_ne_nil _ _)]

/-- C10: `isParentOf` answers strict ancestry — membership of the receiver in
the parent chain above the argument; in particular a component is not its own
parent and a null argument yields false — and `getTopLevelComponent` returns
the end of the parent chain, the unique ancestor that has no parent (the
component itself when the chain is empty). -/
theorem claim_C10_isParentOf_getTopLevel (g : Gui) (a c : Nat) (fuel : Nat)
    (h : rootedIn g c fuel = true) :
    (isParentOf g a (some c) fuel = true ↔ a ∈ ancestorChain g c fuel) ∧
    (isParentOf g a none fuel = false) ∧
    (isParentOf g c (some c) fuel = false) ∧
    (getTopLevelComponent g c fuel =
      (c :: ancestorChain g c fuel).getLast (List.cons_ne_nil _ _)) ∧
    ((g.comps (getTopLevelComponent g c fuel)).parentComponent = none) := by
  refine ⟨isParentOf_eq_mem_chain g a fuel c, ?_, ?_, (getTopLevel_spec g fuel c h).1,
    (getTopLevel_spec g fuel c h).2⟩
  · cases fuel <;> rfl
  · by_contra hne
    have : isParentOf g c (some c) fuel = true := by
      revert hne; cases isParentOf g c (some c) fuel <;> simp
    exact not_self_mem_chain g c fuel h ((isParentOf_eq_mem_chain g c fuel c).mp this)

/-- Witness for C10 in a three-deep chain: `0` is the parent of `1`, which is
the parent of `2`; checked at component `2` with fuel `3`. -/
theorem claim_C10_witness :
    (isParentOf chainFixture 0 (some 2) 3 = true ↔ 0 ∈ ancestorChain chainFixture 2 3) ∧
    (isParentOf chainFixture 0 none 3 = false) ∧
    (isParentOf chainFixture 2 (some 2) 3 = false) ∧
    (getTopLevelComponent chainFixture 2 3 =
      (2 :: ancestorChain chainFixture 2 3).getLast (List.cons_ne_nil _ _)) ∧
    ((chainFixture.comps (getTopLevelComponent chainFixture 2 3)).parentComponent = none) :=
  claim_C10_isParentOf_getTopLevel chainFixture 0 2 3 (by decide)

end Automello

namespace Automello

/-! ## Projection and congruence facts for the state helpers -/

@[simp] theorem comps_logEvent (g : Gui) (e : GuiEvent) : (logEvent g e).comps = g.comps := rfl

@[simp] theorem modalStack_logEvent (g : Gui) (e : GuiEvent) :
    (logEvent g e).modalStack = g.modalStack := rfl

@[simp] theorem desktopComps_logEvent (g : Gui) (e : GuiEvent) :
    (logEvent g e).desktopComps = g.desktopComps := rfl

@[simp] theorem deleted_logEvent (g : Gui) (e : GuiEvent) : (logEvent g e).deleted = g.deleted := rfl

@[simp] theorem canModalFn_logEvent (g : Gui) (e : GuiEvent) :
    (logEvent g e).canModalFn = g.canModalFn := rfl

@[simp] theorem softAsserts_logEvent (g : Gui) (e : GuiEvent) :
    (logEvent g e).softAsserts = g.softAsserts := rfl

@[simp] theorem comps_recordAssert (g : Gui) : (recordAssert g).comps = g.comps := rfl

@[simp] theorem modalStack_recordAssert (g : Gui) : (recordAssert g).modalStack = g.modalStack := rfl

@[simp] theorem desktopComps_recordAssert (g : Gui) :
    (recordAssert g).desktopComps = g.desktopComps := rfl

@[simp] theorem deleted_recordAssert (g : Gui) : (recordAssert g).deleted = g.deleted := rfl

@[simp] theorem canModalFn_recordAssert (g : Gui) : (recordAssert g).canModalFn = g.canModalFn := rfl

@[simp] theorem events_recordAssert (g : Gui) : (recordAssert g).events = g.events := rfl

@[simp] theorem softAsserts_recordAssert (g : Gui) :
    (recordAssert g).softAsserts = g.softAsserts + 1 := rfl

@[simp] theorem comps_checkMM (mml : Bool) (g : Gui) : (checkMM mml g).comps = g.comps := by
  cases mml <;> rfl

@[simp] theorem modalStack_checkMM (mml : Bool) (g : Gui) :
    (checkMM mml g).modalStack = g.modalStack := by cases mml <;> rfl

@[simp] theorem desktopComps_checkMM (mml : Bool) (g : Gui) :
    (checkMM mml g).desktopComps = g.desktopComps := by cases mml <;> rfl

@[simp] theorem deleted_checkMM (mml : Bool) (g : Gui) :
    (checkMM mml g).deleted = g.deleted := by cases mml <;> rfl

@[simp] theorem canModalFn_checkMM (mml : Bool) (g : Gui) :
    (checkMM mml g).canModalFn = g.canModalFn := by cases mml <;> rfl

@[simp] theorem events_checkMM (mml : Bool) (g : Gui) :
    (checkMM mml g).events = g.events := by cases mml <;> rfl

@[simp] theorem checkMM_true (g : Gui) : checkMM true g = g := rfl

@[simp] theorem modalStack_updateComp (g : Gui) (c : Nat) (f : Comp → Comp) :
    (updateComp g c f).modalStack = g.modalStack := rfl

@[simp] theorem desktopComps_updateComp (g : Gui) (c : Nat) (f : Comp → Comp) :
    (updateComp g c f).desktopComps = g.desktopComps := rfl

@[simp] theorem deleted_updateComp (g : Gui) (c : Nat) (f : Comp → Comp) :
    (updateComp g c f).deleted = g.deleted := rfl

@[simp] theorem canModalFn_updateComp (g : Gui) (c : Nat) (f : Comp → Comp) :
    (updateComp g c f).canModalFn = g.canModalFn := rfl

@[simp] theorem events_updateComp (g : Gui) (c : Nat) (f : Comp → Comp) :
    (updateComp g c f).events = g.events := rfl

@[simp] theorem softAsserts_updateComp (g : Gui) (c : Nat) (f : Comp → Comp) :
    (updateComp g c f).softAsserts = g.softAsserts := rfl

theorem comps_updateComp (g : Gui) (c : Nat) (f : Comp → Comp) (i : Nat) :
    (updateComp g c f).comps i = if i = c then f (g.comps i) else g.comps i := rfl

@[simp] theorem isCurrentlyModal_recordAssert (g : Gui) (c : Nat) :
    isCurrentlyModal (recordAssert g) c = isCurrentlyModal g c := rfl

@[simp] theorem isCurrentlyModal_checkMM (mml : Bool) (g : Gui) (c : Nat) :
    isCurrentlyModal (checkMM mml g) c = isCurrentlyModal g c := by cases mml <;> rfl

@[simp] theorem shouldBailOut_logEvent (g : Gui) (e : GuiEvent) (c : Nat) :
    shouldBailOut (logEvent g e) c = shouldBailOut g c := rfl

end Automello

namespace Automello

/-! ## Claim C1: modal blocking and input routing -/

/-- C1: a component is blocked exactly when there is a currently modal
component that is not the component itself, not one of its ancestors, and does
not let events through to it; and a mouse-down on a blocked component that
stays blocked through the input attempt delivers no `mouseDown` callback to the
component — the attempt is routed to the modal component's
`inputAttemptWhenModal` instead. -/
theorem claim_C1_modal_blocking (g : Gui) (c m : Nat) (fuel : Nat)
    (eff : Nat → Gui → Gui) (mml : Bool)
    (_hroot : rootedIn g c fuel = true) :
    (isCurrentlyBlockedByAnotherModalComponent g c fuel = true ↔
      ∃ mc, getCurrentlyModalComponent g = some mc ∧ mc ≠ c ∧
        mc ∉ ancestorChain g c fuel ∧ g.canModalFn mc c = false) ∧
    (getCurrentlyModalComponent g = some m →
     isCurrentlyBlockedByAnotherModalComponent g c fuel = true →
     (∀ m' g', (eff m' g').events = g'.events) →
     (shouldBailOut (internalModalInputAttempt eff g) c = true ∨
       isCurrentlyBlockedByAnotherModalComponent (internalModalInputAttempt eff g) c fuel = true) →
     GuiEvent.inputAttemptWhenModalEvent m ∈
        ((internalMouseDown mml fuel eff g c).events).drop g.events.length ∧
     GuiEvent.mouseDownCallback c ∉
        ((internalMouseDown mml fuel eff g c).events).drop g.events.length) := by
  constructor
  · unfold isCurrentlyBlockedByAnotherModalComponent
    cases hm : getCurrentlyModalComponent g with
    | none => simp
    | some mc =>
        rw [Bool.not_eq_true', Bool.or_eq_false_iff, Bool.or_eq_false_iff]
        constructor
        · rintro ⟨⟨h1, h2⟩, h3⟩
          refine ⟨mc, rfl, ?_, ?_, h3⟩
          · intro hcc; subst hcc; simp at h1
          · intro hmem
            rw [(isParentOf_eq_mem_chain g mc fuel c).mpr hmem] at h2
            cases h2
        · rintro ⟨mc', hmc', hne, hmem, hcan⟩
          have hmc'' : mc' = mc := by
            injection hmc' with h
            exact h.symm
          subst hmc''
          refine ⟨⟨?_, ?_⟩, hcan⟩
          · simp [hne]
          · cases hpf : isParentOf g mc' (some c) fuel with
            | false => rfl
            | true => exact absurd ((isParentOf_eq_mem_chain g mc' fuel c).mp hpf) hmem
  · intro hm hblocked heff hafter
    have hev1 : (internalModalInputAttempt eff g).events =
        g.events ++ [GuiEvent.inputAttemptWhenModalEvent m] := by
      unfold internalModalInputAttempt
      rw [hm, heff]
      rfl
    unfold internalMouseDown
    rw [hblocked]
    simp only [if_true]
    by_cases hbail : shouldBailOut (internalModalInputAttempt eff g) c = true
    · rw [hbail]
      simp only [if_true, hev1, List.drop_left]
      constructor
      · exact List.mem_singleton.mpr rfl
      · simp
    · have hbf : shouldBailOut (internalModalInputAttempt eff g) c = false := by
        revert hbail; cases shouldBailOut (internalModalInputAttempt eff g) c <;> simp
      have hb2 : isCurrentlyBlockedByAnotherModalComponent
          (internalModalInputAttempt eff g) c fuel = true := hafter.resolve_left hbail
      rw [hbf, hb2]
      simp only [Bool.false_eq_true, if_false, if_true]
      have hev2 : (logEvent (internalModalInputAttempt eff g) (.desktopMouseDown c)).events =
          g.events ++ [GuiEvent.inputAttemptWhenModalEvent m, GuiEvent.desktopMouseDown c] := by
        unfold logEvent
        rw [hev1, List.append_assoc]
        rfl
      rw [hev2, List.drop_left]
      constructor
      · exact List.mem_cons_self _ _
      · simp

/-- Witness for C1: with component `1` modal, a mouse-down on the unrelated
component `0` logs the input attempt to `1` and no `mouseDown` to `0`. -/
theorem claim_C1_witness :
    GuiEvent.inputAttemptWhenModalEvent 1 ∈
      ((internalMouseDown true 1 (fun _ h => h) modalFixture 0).events).drop
        modalFixture.events.length ∧
    GuiEvent.mouseDownCallback 0 ∉
      ((internalMouseDown true 1 (fun _ h => h) modalFixture 0).events).drop
        modalFixture.events.length :=
  (claim_C1_modal_blocking modalFixture 0 1 1 (fun _ h => h) true (by decide)).2
    (by decide) (by decide) (fun _ _ => rfl) (Or.inr (by decide))

end Automello

namespace Automello

/-! ## Claim C6: failures only assert -/

/-- C6 counterexample: component `1` is already modal (its modal flag is set,
so the `jassert` fires), yet calling `enterModalState` on it does not leave the
modal state unchanged — it is pushed onto the modal stack a second time,
because the guard tests `isCurrentlyModal()` (being the *active* modal
component), which is false while component `0` sits on top of the stack. -/
theorem claim_C6_counterexample :
    ((modalFixture2.comps 1).currentlyModalFlag = true) ∧
    modalFixture2.modalStack = [0, 1] ∧
    (enterModalState true 3 modalFixture2 1 false false).modalStack = [1, 0, 1] := by
  refine ⟨by decide, by decide, by decide⟩

/-- C6 (amended): `enterModalState` on the component that is currently the
*active* modal component only asserts and leaves everything else unchanged;
`toBack` on a desktop component only asserts; the default
`userTriedToCloseWindow` only asserts; no exceptions or error returns exist in
the model. -/
theorem claim_C6_assert_only_failures (mml : Bool) (fuel : Nat) (g : Gui) (c : Nat)
    (tf del : Bool) :
    (isCurrentlyModal g c = true →
      enterModalState mml fuel g c tf del = recordAssert (checkMM mml g)) ∧
    ((g.comps c).hasHeavyweightPeerFlag = true → toBack mml fuel g c = recordAssert g) ∧
    (userTriedToCloseWindow g = recordAssert g) := by
  refine ⟨?_, ?_, rfl⟩
  · intro h
    have hflag : (g.comps c).currentlyModalFlag = true := by
      unfold isCurrentlyModal at h
      exact (Bool.and_eq_true_iff.mp h).1
    unfold enterModalState
    simp only [comps_checkMM, hflag, if_true, isCurrentlyModal_recordAssert,
      isCurrentlyModal_checkMM, h]
  · intro h
    unfold toBack
    rw [h]
    simp only [if_true]

/-- Witness for C6: in the one-modal state, re-entering the active modal
component `1` only asserts; the desktop component `2` of the desktop fixture
only asserts on `toBack`. -/
theorem claim_C6_witness :
    (enterModalState true 3 modalFixture 1 false false = recordAssert (checkMM true modalFixture)) ∧
    (toBack true 3 desktopFixture 2 = recordAssert desktopFixture) :=
  ⟨(claim_C6_assert_only_failures true 3 modalFixture 1 false false).1 (by decide),
   (claim_C6_assert_only_failures true 3 desktopFixture 2 false false).2.1 (by decide)⟩

end Automello

namespace Automello

/-! ## Claim C4 infrastructure: the assert counter never shrinks -/

theorem softAsserts_le_checkMM (mml : Bool) (g : Gui) :
    g.softAsserts ≤ (checkMM mml g).softAsserts := by
  cases mml <;> simp [checkMM]

theorem softAsserts_le_internalRepaint (mml : Bool) (c : Nat) (fuel : Nat) :
    ∀ (g : Gui) (x y w h : Int),
      g.softAsserts ≤ (internalRepaint mml g c x y w h fuel).softAsserts := by
  induction fuel generalizing c with
  | zero =>
      intro g x y w h
      unfold internalRepaint
      exact softAsserts_le_checkMM mml g
  | succ n ih =>
      intro g x y w h
      unfold internalRepaint
      lift_lets
      intros
      refine le_trans (softAsserts_le_checkMM mml g) ?_
      repeat' split
      all_goals first
        | exact le_rfl
        | exact ih _ _ _ _ _ _
        | simp

theorem softAsserts_le_repaintRect (mml : Bool) (fuel : Nat) (g : Gui) (c : Nat)
    (x y w h : Int) : g.softAsserts ≤ (repaintRect mml fuel g c x y w h).softAsserts := by
  unfold repaintRect
  split
  · exact softAsserts_le_internalRepaint mml c fuel g x y w h
  · exact le_rfl

theorem softAsserts_le_repaintAll (mml : Bool) (fuel : Nat) (g : Gui) (c : Nat) :
    g.softAsserts ≤ (repaintAll mml fuel g c).softAsserts :=
  softAsserts_le_repaintRect mml fuel g c 0 0 _ _

theorem softAsserts_le_repaintParent (mml : Bool) (fuel : Nat) (g : Gui) (c : Nat) :
    g.softAsserts ≤ (repaintParent mml fuel g c).softAsserts := by
  unfold repaintParent
  split
  · exact softAsserts_le_internalRepaint mml c fuel g 0 0 _ _
  · exact le_rfl

theorem softAsserts_le_internalChildrenChanged (g : Gui) (c : Nat) :
    g.softAsserts ≤ (internalChildrenChanged g c).softAsserts := by
  unfold internalChildrenChanged
  dsimp only
  split
  · simp
  · split <;> simp

theorem softAsserts_le_sendVisibilityChangeMessage (g : Gui) (c : Nat) :
    g.softAsserts ≤ (sendVisibilityChangeMessage g c).softAsserts := by
  unfold sendVisibilityChangeMessage
  dsimp only
  split <;> simp

theorem softAsserts_foldl_logEvent {α : Type} (f : α → GuiEvent) :
    ∀ (l : List α) (g : Gui),
      (l.foldl (fun acc e => logEvent acc (f e)) g).softAsserts = g.softAsserts := by
  intro l
  induction l with
  | nil => intro g; rfl
  | cons e rest ih => intro g; rw [List.foldl_cons, ih]; rfl

theorem softAsserts_le_internalHierarchyChanged (fuel : Nat) :
    ∀ (g : Gui) (c : Nat), g.softAsserts ≤ (internalHierarchyChanged g c fuel).softAsserts := by
  induction fuel with
  | zero => intro g c; exact le_rfl
  | succ n ih =>
      intro g c
      unfold internalHierarchyChanged
      dsimp only
      split
      · simp
      · split
        · simp
        · have hfold : ∀ (l : List Nat) (acc : Gui × Bool),
              acc.1.softAsserts ≤
                (l.foldl
                  (fun (acc : Gui × Bool) ch =>
                    if acc.2 then acc
                    else
                      let g' := internalHierarchyChanged acc.1 ch n
                      if shouldBailOut g' c then (recordAssert g', true)
                      else (g', false))
                  acc).1.softAsserts := by
            intro l
            induction l with
            | nil => intro acc; exact le_rfl
            | cons ch rest ihl =>
                intro acc
                rw [List.foldl_cons]
                refine le_trans ?_ (ihl _)
                dsimp only
                split
                · exact le_rfl
                · split
                  · exact le_trans (ih acc.1 ch) (by simp)
                  · exact ih acc.1 ch
          refine le_trans ?_ (hfold _ _)
          simp

end Automello

namespace Automello

theorem softAsserts_le_ite {c : Prop} [Decidable c] {g a b : Gui}
    (ha : g.softAsserts ≤ a.softAsserts) (hb : g.softAsserts ≤ b.softAsserts) :
    g.softAsserts ≤ (if c then a else b).softAsserts := by
  split
  · exact ha
  · exact hb

theorem softAsserts_le_optionCases {α : Type} (o : Option α) (f : α → Gui) (e : Gui) (base : Nat)
    (ha : ∀ p, base ≤ (f p).softAsserts) (hb : base ≤ e.softAsserts) :
    base ≤ (match o with | some p => f p | none => e).softAsserts := by
  cases o with
  | none => exact hb
  | some p => exact ha p

theorem softAsserts_le_recordAssert (g : Gui) : g.softAsserts ≤ (recordAssert g).softAsserts := by
  simp

theorem softAsserts_le_setVisible (mml : Bool) (fuel : Nat) (g : Gui) (c : Nat) (b : Bool) :
    g.softAsserts ≤ (setVisible mml fuel g c b).softAsserts := by
  unfold setVisible
  split
  · exact le_rfl
  · lift_lets
    intro g1 g2 g3 g4 g5 g6 g7
    have h6 : g5.softAsserts ≤ g6.softAsserts :=
      softAsserts_le_ite (softAsserts_le_recordAssert _) le_rfl
    have h7 : g6.softAsserts ≤ g7.softAsserts :=
      softAsserts_le_ite le_rfl
        (softAsserts_le_internalHierarchyChanged fuel
          (logEvent g6 (GuiEvent.notify "peerSetVisible" c)) c)
    have h5 : g.softAsserts ≤ g5.softAsserts :=
      calc g.softAsserts
          ≤ g1.softAsserts := softAsserts_le_checkMM mml g
        _ ≤ g2.softAsserts := le_rfl
        _ ≤ g3.softAsserts := softAsserts_le_internalRepaint _ _ _ _ _ _ _ _
        _ ≤ g4.softAsserts := le_rfl
        _ ≤ g5.softAsserts := softAsserts_le_sendVisibilityChangeMessage _ _
    exact le_trans h5 (softAsserts_le_ite (le_trans h6 h7) le_rfl)

end Automello

namespace Automello

theorem softAsserts_le_setName (mml : Bool) (g : Gui) (c : Nat) (name : String) :
    g.softAsserts ≤ (setName mml g c name).softAsserts := by
  unfold setName
  lift_lets
  intro g1 g2 ga g3
  have hga : g2.softAsserts ≤ ga.softAsserts := by
    unfold_let ga
    exact softAsserts_le_ite (softAsserts_le_recordAssert _) le_rfl
  have h3 : g2.softAsserts ≤ g3.softAsserts := by
    unfold_let g3
    exact softAsserts_le_ite (softAsserts_le_ite hga hga) le_rfl
  refine le_trans (softAsserts_le_checkMM mml g) ?_
  refine softAsserts_le_ite le_rfl ?_
  exact le_trans h3 (softAsserts_le_ite le_rfl le_rfl)

theorem softAsserts_le_removeFromDesktop (mml : Bool) (g : Gui) (c : Nat) :
    g.softAsserts ≤ (removeFromDesktop mml g c).softAsserts := by
  unfold removeFromDesktop
  lift_lets
  intro g1 g2 g3
  have h2 : g1.softAsserts ≤ g2.softAsserts := by
    unfold_let g2
    exact softAsserts_le_ite (softAsserts_le_recordAssert _) le_rfl
  refine le_trans (softAsserts_le_checkMM mml g) ?_
  exact softAsserts_le_ite (le_trans h2 le_rfl) le_rfl

theorem softAsserts_le_sendMovedResizedMessages (g : Gui) (c : Nat) (wasMoved wasResized : Bool) :
    g.softAsserts ≤ (sendMovedResizedMessages g c wasMoved wasResized).softAsserts := by
  unfold sendMovedResizedMessages
  lift_lets
  intro g1 g2 g3 g4
  have h1 : g.softAsserts ≤ g1.softAsserts := by
    unfold_let g1
    exact softAsserts_le_ite le_rfl le_rfl
  have h2 : g1.softAsserts ≤ g2.softAsserts := by
    unfold_let g2
    exact softAsserts_le_ite le_rfl le_rfl
  have h3 : g2.softAsserts ≤ g3.softAsserts := by
    unfold_let g3
    refine softAsserts_le_ite ?_ le_rfl
    exact le_of_eq (softAsserts_foldl_logEvent (fun ch => .notify "parentSizeChanged" ch)
      ((g2.comps c).childComponentList.reverse) g2).symm
  have h4 : g3.softAsserts ≤ g4.softAsserts := by
    unfold_let g4
    cases hp : (g3.comps c).parentComponent <;> exact le_rfl
  refine softAsserts_le_ite h1 ?_
  refine softAsserts_le_ite (le_trans h1 h2) ?_
  refine softAsserts_le_ite (le_trans h1 (le_trans h2 h3)) ?_
  refine softAsserts_le_ite (le_trans h1 (le_trans h2 (le_trans h3 h4))) ?_
  exact le_trans h1 (le_trans h2 (le_trans h3 h4))

theorem softAsserts_le_setBounds (mml : Bool) (fuel : Nat) (g : Gui) (c : Nat) (x y w0 h0 : Int) :
    g.softAsserts ≤ (setBounds mml fuel g c x y w0 h0).softAsserts := by
  unfold setBounds
  lift_lets
  intro g1 w h wasResized wasMoved showing gb g2 g3 g4 g5
  have h2 : g1.softAsserts ≤ g2.softAsserts := by
    unfold_let g2
    refine softAsserts_le_ite ?_ le_rfl
    refine softAsserts_le_ite ?_ le_rfl
    exact softAsserts_le_repaintParent mml fuel gb c
  have h4 : g3.softAsserts ≤ g4.softAsserts := by
    unfold_let g4
    refine softAsserts_le_ite ?_ le_rfl
    refine softAsserts_le_ite (softAsserts_le_repaintAll mml fuel g3 c) ?_
    exact softAsserts_le_ite (softAsserts_le_repaintParent mml fuel g3 c) le_rfl
  have h5 : g4.softAsserts ≤ g5.softAsserts := by
    unfold_let g5
    exact softAsserts_le_ite le_rfl le_rfl
  refine le_trans (softAsserts_le_checkMM mml g) ?_
  refine softAsserts_le_ite ?_ le_rfl
  exact le_trans h2 (le_trans h4 (le_trans h5
    (softAsserts_le_sendMovedResizedMessages g5 c wasMoved wasResized)))

theorem softAsserts_le_setTopLeftPosition (mml : Bool) (fuel : Nat) (g : Gui) (c : Nat)
    (x y : Int) : g.softAsserts ≤ (setTopLeftPosition mml fuel g c x y).softAsserts :=
  softAsserts_le_setBounds mml fuel g c x y _ _

theorem softAsserts_le_removeChildComponentIdx (mml : Bool) (fuel : Nat) (g : Gui) (p : Nat)
    (index : Int) (spe sce : Bool) :
    g.softAsserts ≤ (removeChildComponentIdx mml fuel g p index spe sce).1.softAsserts := by
  unfold removeChildComponentIdx
  lift_lets
  intro g1
  split
  · exact softAsserts_le_checkMM mml g
  · lift_lets
    intro spe' g2 g3 g4 g5 g6
    have h2 : g1.softAsserts ≤ g2.softAsserts := by
      refine softAsserts_le_ite ?_ le_rfl
      exact softAsserts_le_repaintParent mml fuel (logEvent g1 (.notify "sendFakeMouseMove" p)) _
    calc g.softAsserts
        ≤ g1.softAsserts := softAsserts_le_checkMM mml g
      _ ≤ g2.softAsserts := h2
      _ ≤ g3.softAsserts := le_rfl
      _ ≤ g4.softAsserts := le_rfl
      _ ≤ g5.softAsserts :=
          softAsserts_le_ite (softAsserts_le_internalHierarchyChanged fuel g4 _) le_rfl
      _ ≤ g6.softAsserts :=
          softAsserts_le_ite (softAsserts_le_internalChildrenChanged g5 p) le_rfl
      _ ≤ _ := le_rfl

theorem softAsserts_le_removeChildComponent (mml : Bool) (fuel : Nat) (g : Gui) (p child : Nat) :
    g.softAsserts ≤ (removeChildComponent mml fuel g p child).softAsserts :=
  softAsserts_le_removeChildComponentIdx mml fuel g p _ true true

theorem softAsserts_le_addChildComponent (mml : Bool) (fuel : Nat) (g : Gui) (p : Nat)
    (childOpt : Option Nat) (zOrder0 : Int) :
    g.softAsserts ≤ (addChildComponent mml fuel g p childOpt zOrder0).softAsserts := by
  unfold addChildComponent
  lift_lets
  intro g1
  split
  · exact softAsserts_le_checkMM mml g
  · rename_i child
    lift_lets
    intro g2 g3 g4 cl z zOrder g5 g6
    have h2 : g1.softAsserts ≤ g2.softAsserts := by
      unfold_let g2
      cases hp : (g1.comps child).parentComponent with
      | none => exact softAsserts_le_removeFromDesktop mml g1 child
      | some q => exact softAsserts_le_removeChildComponent mml fuel g1 q child
    have h4 : g3.softAsserts ≤ g4.softAsserts := by
      unfold_let g4
      exact softAsserts_le_ite (softAsserts_le_repaintParent mml fuel g3 child) le_rfl
    refine softAsserts_le_ite (softAsserts_le_checkMM mml g) ?_
    refine le_trans (softAsserts_le_checkMM mml g) ?_
    refine le_trans h2 (le_trans h4 ?_)
    exact le_trans (softAsserts_le_internalHierarchyChanged fuel g5 child)
      (softAsserts_le_internalChildrenChanged g6 p)

theorem softAsserts_le_enterModalState (mml : Bool) (fuel : Nat) (g : Gui) (c : Nat)
    (tf del : Bool) : g.softAsserts ≤ (enterModalState mml fuel g c tf del).softAsserts := by
  unfold enterModalState
  lift_lets
  intro g1 g2 g3 g4 g5 g6 g7
  have h2 : g.softAsserts ≤ g2.softAsserts := by
    unfold_let g2
    exact le_trans (softAsserts_le_checkMM mml g)
      (softAsserts_le_ite (softAsserts_le_recordAssert _) le_rfl)
  have h5 : g4.softAsserts ≤ g5.softAsserts := by
    unfold_let g5
    exact softAsserts_le_ite le_rfl le_rfl
  refine softAsserts_le_ite h2 ?_
  refine le_trans h2 ?_
  refine le_trans (le_rfl : g2.softAsserts ≤ g4.softAsserts) ?_
  refine le_trans h5 ?_
  refine le_trans (softAsserts_le_setVisible mml fuel g6 c true) ?_
  exact softAsserts_le_ite le_rfl le_rfl

theorem softAsserts_le_addComponentListener (mml : Bool) (g : Gui) (c l : Nat) :
    g.softAsserts ≤ (addComponentListener mml g c l).softAsserts :=
  softAsserts_le_checkMM mml g

theorem softAsserts_le_addMouseListener (mml : Bool) (g : Gui) (c l : Nat) (deep : Bool) :
    g.softAsserts ≤ (addMouseListener mml g c l deep).softAsserts := by
  unfold addMouseListener
  lift_lets
  intro g1 g2
  calc g.softAsserts
      ≤ g1.softAsserts := softAsserts_le_checkMM mml g
    _ ≤ g2.softAsserts := softAsserts_le_ite (softAsserts_le_recordAssert _) le_rfl
    _ ≤ _ := le_rfl

theorem softAsserts_le_addToDesktop (mml : Bool) (fuel : Nat) (g : Gui) (c : Nat)
    (style : WindowStyle) : g.softAsserts ≤ (addToDesktop mml fuel g c style).softAsserts := by
  unfold addToDesktop
  lift_lets
  intro g1 styleWanted currentStyleFlags topLeft hadPeer g2 g3 g4 g5 g6 g7 g8 g9 g10
  have h2 : g1.softAsserts ≤ g2.softAsserts := by
    unfold_let g2
    refine softAsserts_le_ite ?_ le_rfl
    exact le_trans (softAsserts_le_removeFromDesktop mml g1 c)
      (softAsserts_le_setTopLeftPosition mml fuel (removeFromDesktop mml g1 c) c _ _)
  have h3 : g2.softAsserts ≤ g3.softAsserts := by
    unfold_let g3
    cases hp : (g2.comps c).parentComponent with
    | none => exact le_rfl
    | some p => exact softAsserts_le_removeChildComponent mml fuel g2 p c
  have h9 : g8.softAsserts ≤ g9.softAsserts := by
    unfold_let g9
    exact softAsserts_le_ite le_rfl le_rfl
  refine le_trans (softAsserts_le_checkMM mml g) ?_
  refine softAsserts_le_ite le_rfl ?_
  refine le_trans h2 (le_trans h3 ?_)
  refine le_trans (le_rfl : g3.softAsserts ≤ g8.softAsserts) ?_
  refine le_trans h9 ?_
  exact le_trans (softAsserts_le_repaintAll mml fuel g9 c)
    (softAsserts_le_internalHierarchyChanged fuel g10 c)

end Automello

namespace Automello

/-! ## Claim C4: thread-affinity assertions -/

/-- C4: every modelled state-mutating operation runs
`CHECK_MESSAGE_MANAGER_IS_LOCKED` before mutating — calling it on a thread that
does not hold the message-manager lock (`mml = false`) fires a debug assertion
(the assert counter strictly increases; for `setVisible`, whose check sits
behind the no-change guard, either the call is a complete no-op or the
assertion fired).  The operations read the lock state and never change it: they
are pure functions of the `mml` flag. -/
theorem claim_C4_message_thread_asserts (g : Gui) (fuel : Nat) :
    (∀ c name, g.softAsserts < (setName false g c name).softAsserts) ∧
    (∀ c b, setVisible false fuel g c b = g ∨
      g.softAsserts < (setVisible false fuel g c b).softAsserts) ∧
    (∀ c style, g.softAsserts < (addToDesktop false fuel g c style).softAsserts) ∧
    (∀ c, g.softAsserts < (removeFromDesktop false g c).softAsserts) ∧
    (∀ c x y w h, g.softAsserts < (setBounds false fuel g c x y w h).softAsserts) ∧
    (∀ p child z, g.softAsserts < (addChildComponent false fuel g p child z).softAsserts) ∧
    (∀ p i spe sce,
      g.softAsserts < (removeChildComponentIdx false fuel g p i spe sce).1.softAsserts) ∧
    (∀ c tf del, g.softAsserts < (enterModalState false fuel g c tf del).softAsserts) ∧
    (∀ c l, g.softAsserts < (addComponentListener false g c l).softAsserts) ∧
    (∀ c l deep, g.softAsserts < (addMouseListener false g c l deep).softAsserts) ∧
    (∀ c x y w h, g.softAsserts < (internalRepaint false g c x y w h fuel).softAsserts) := by
  refine ⟨?_, ?_, ?_, ?_, ?_, ?_, ?_, ?_, ?_, ?_, ?_⟩
  · intro c name
    refine Nat.lt_of_lt_of_le (Nat.lt_succ_self _) ?_
    show (recordAssert g).softAsserts ≤ (setName false g c name).softAsserts
    unfold setName
    lift_lets
    intro g1 g2 ga g3
    have hga : g2.softAsserts ≤ ga.softAsserts := by
      unfold_let ga
      exact softAsserts_le_ite (softAsserts_le_recordAssert _) le_rfl
    have h3 : g2.softAsserts ≤ g3.softAsserts := by
      unfold_let g3
      exact softAsserts_le_ite (softAsserts_le_ite hga hga) le_rfl
    refine softAsserts_le_ite le_rfl ?_
    exact le_trans h3 (softAsserts_le_ite le_rfl le_rfl)
  · intro c b
    by_cases hv : (g.comps c).visibleFlag = b
    · left
      simp [setVisible, hv]
    · right
      refine Nat.lt_of_lt_of_le (Nat.lt_succ_self _) ?_
      show (recordAssert g).softAsserts ≤ (setVisible false fuel g c b).softAsserts
      unfold setVisible
      rw [if_neg hv]
      lift_lets
      intro g1 g2 g3 g4 g5 g6 g7
      have h6 : g5.softAsserts ≤ g6.softAsserts := by
        unfold_let g6
        exact softAsserts_le_ite (softAsserts_le_recordAssert _) le_rfl
      have h7 : g6.softAsserts ≤ g7.softAsserts := by
        unfold_let g7
        exact softAsserts_le_ite le_rfl
          (softAsserts_le_internalHierarchyChanged fuel
            (logEvent g6 (GuiEvent.notify "peerSetVisible" c)) c)
      have h5 : (recordAssert g).softAsserts ≤ g5.softAsserts :=
        calc (recordAssert g).softAsserts
            ≤ g2.softAsserts := le_rfl
          _ ≤ g3.softAsserts := softAsserts_le_internalRepaint _ _ _ _ _ _ _ _
          _ ≤ g4.softAsserts := le_rfl
          _ ≤ g5.softAsserts := softAsserts_le_sendVisibilityChangeMessage _ _
      exact le_trans h5 (softAsserts_le_ite (le_trans h6 h7) le_rfl)
  · intro c style
    refine Nat.lt_of_lt_of_le (Nat.lt_succ_self _) ?_
    show (recordAssert g).softAsserts ≤ (addToDesktop false fuel g c style).softAsserts
    unfold addToDesktop
    lift_lets
    intro g1 styleWanted currentStyleFlags topLeft hadPeer g2 g3 g4 g5 g6 g7 g8 g9 g10
    have h2 : g1.softAsserts ≤ g2.softAsserts := by
      unfold_let g2
      refine softAsserts_le_ite ?_ le_rfl
      exact le_trans (softAsserts_le_removeFromDesktop false g1 c)
        (softAsserts_le_setTopLeftPosition false fuel (removeFromDesktop false g1 c) c _ _)
    have h3 : g2.softAsserts ≤ g3.softAsserts := by
      unfold_let g3
      cases hp : (g2.comps c).parentComponent with
      | none => exact le_rfl
      | some p => exact softAsserts_le_removeChildComponent false fuel g2 p c
    have h9 : g8.softAsserts ≤ g9.softAsserts := by
      unfold_let g9
      exact softAsserts_le_ite le_rfl le_rfl
    refine softAsserts_le_ite le_rfl ?_
    refine le_trans h2 (le_trans h3 ?_)
    refine le_trans (le_rfl : g3.softAsserts ≤ g8.softAsserts) ?_
    refine le_trans h9 ?_
    exact le_trans (softAsserts_le_repaintAll false fuel g9 c)
      (softAsserts_le_internalHierarchyChanged fuel g10 c)
  · intro c
    refine Nat.lt_of_lt_of_le (Nat.lt_succ_self _) ?_
    show (recordAssert g).softAsserts ≤ (removeFromDesktop false g c).softAsserts
    unfold removeFromDesktop
    lift_lets
    intro g1 g2 g3
    have h2 : g1.softAsserts ≤ g2.softAsserts := by
      unfold_let g2
      exact softAsserts_le_ite (softAsserts_le_recordAssert _) le_rfl
    exact softAsserts_le_ite (le_trans h2 le_rfl) le_rfl
  · intro c x y w h
    refine Nat.lt_of_lt_of_le (Nat.lt_succ_self _) ?_
    show (recordAssert g).softAsserts ≤ (setBounds false fuel g c x y w h).softAsserts
    unfold setBounds
    lift_lets
    intro g1 w' h' wasResized wasMoved showing gb g2 g3 g4 g5
    have h2 : g1.softAsserts ≤ g2.softAsserts := by
      unfold_let g2
      refine softAsserts_le_ite ?_ le_rfl
      refine softAsserts_le_ite ?_ le_rfl
      exact softAsserts_le_repaintParent false fuel gb c
    have h4 : g3.softAsserts ≤ g4.softAsserts := by
      unfold_let g4
      refine softAsserts_le_ite ?_ le_rfl
      refine softAsserts_le_ite (softAsserts_le_repaintAll false fuel g3 c) ?_
      exact softAsserts_le_ite (softAsserts_le_repaintParent false fuel g3 c) le_rfl
    have h5 : g4.softAsserts ≤ g5.softAsserts := by
      unfold_let g5
      exact softAsserts_le_ite le_rfl le_rfl
    refine softAsserts_le_ite ?_ le_rfl
    exact le_trans h2 (le_trans h4 (le_trans h5
      (softAsserts_le_sendMovedResizedMessages g5 c wasMoved wasResized)))
  · intro p child z
    refine Nat.lt_of_lt_of_le (Nat.lt_succ_self _) ?_
    show (recordAssert g).softAsserts ≤ (addChildComponent false fuel g p child z).softAsserts
    unfold addChildComponent
    lift_lets
    intro g1
    split
    · exact le_rfl
    · rename_i ch
      lift_lets
      intro g2 g3 g4 cl z' zOrder g5 g6
      have h2 : g1.softAsserts ≤ g2.softAsserts := by
        unfold_let g2
        cases hp : (g1.comps ch).parentComponent with
        | none => exact softAsserts_le_removeFromDesktop false g1 ch
        | some q => exact softAsserts_le_removeChildComponent false fuel g1 q ch
      have h4 : g3.softAsserts ≤ g4.softAsserts := by
        unfold_let g4
        exact softAsserts_le_ite (softAsserts_le_repaintParent false fuel g3 ch) le_rfl
      refine softAsserts_le_ite le_rfl ?_
      refine le_trans h2 (le_trans h4 ?_)
      exact le_trans (softAsserts_le_internalHierarchyChanged fuel g5 ch)
        (softAsserts_le_internalChildrenChanged g6 p)
  · intro p i spe sce
    refine Nat.lt_of_lt_of_le (Nat.lt_succ_self _) ?_
    show (recordAssert g).softAsserts ≤
      (removeChildComponentIdx false fuel g p i spe sce).1.softAsserts
    unfold removeChildComponentIdx
    lift_lets
    intro g1
    split
    · exact le_rfl
    · rename_i child heq
      lift_lets
      intro spe' g2 g3 g4 g5 g6
      have h2 : g1.softAsserts ≤ g2.softAsserts := by
        unfold_let g2
        refine softAsserts_le_ite ?_ le_rfl
        exact softAsserts_le_repaintParent false fuel
          (logEvent g1 (.notify "sendFakeMouseMove" p)) child
      refine le_trans h2 ?_
      refine le_trans
        (softAsserts_le_ite (softAsserts_le_internalHierarchyChanged fuel g4 child) le_rfl :
          g4.softAsserts ≤ g5.softAsserts) ?_
      exact softAsserts_le_ite (softAsserts_le_internalChildrenChanged g5 p) le_rfl
  · intro c tf del
    refine Nat.lt_of_lt_of_le (Nat.lt_succ_self _) ?_
    show (recordAssert g).softAsserts ≤ (enterModalState false fuel g c tf del).softAsserts
    unfold enterModalState
    lift_lets
    intro g1 g2 g3 g4 g5 g6 g7
    have h2 : (recordAssert g).softAsserts ≤ g2.softAsserts := by
      unfold_let g2
      exact softAsserts_le_ite (softAsserts_le_recordAssert _) le_rfl
    have h5 : g4.softAsserts ≤ g5.softAsserts := by
      unfold_let g5
      exact softAsserts_le_ite le_rfl le_rfl
    refine softAsserts_le_ite h2 ?_
    refine le_trans h2 ?_
    refine le_trans (le_rfl : g2.softAsserts ≤ g4.softAsserts) ?_
    refine le_trans h5 ?_
    refine le_trans (softAsserts_le_setVisible false fuel g6 c true) ?_
    exact softAsserts_le_ite le_rfl le_rfl
  · intro c l
    exact Nat.lt_succ_self _
  · intro c l deep
    refine Nat.lt_of_lt_of_le (Nat.lt_succ_self _) ?_
    show (recordAssert g).softAsserts ≤ (addMouseListener false g c l deep).softAsserts
    unfold addMouseListener
    lift_lets
    intro g1 g2
    exact softAsserts_le_ite (softAsserts_le_recordAssert _) le_rfl
  · intro c x y w h
    cases fuel with
    | zero => exact Nat.lt_succ_self _
    | succ n =>
        refine Nat.lt_of_lt_of_le (Nat.lt_succ_self _) ?_
        show (recordAssert g).softAsserts ≤ (internalRepaint false g c x y w h (n + 1)).softAsserts
        unfold internalRepaint
        lift_lets
        intros
        repeat' split
        all_goals first
          | exact le_rfl
          | exact softAsserts_le_internalRepaint false _ n _ _ _ _ _
          | simp

end Automello

namespace Automello

/-! ## Claim C8 infrastructure: nonnegative sizes -/

theorem sizesOK_of_comps_eq {g g' : Gui} (h : g'.comps = g.comps) (hs : SizesOK g) :
    SizesOK g' := by
  intro c
  rw [h]
  exact hs c

theorem comps_foldl_logEvent {α : Type} (f : α → GuiEvent) :
    ∀ (l : List α) (g : Gui),
      (l.foldl (fun acc e => logEvent acc (f e)) g).comps = g.comps := by
  intro l
  induction l with
  | nil => intro g; rfl
  | cons e rest ih => intro g; rw [List.foldl_cons, ih]; rfl

theorem comps_internalRepaint (mml : Bool) (fuel : Nat) :
    ∀ (g : Gui) (c : Nat) (x y w h : Int),
      (internalRepaint mml g c x y w h fuel).comps = g.comps := by
  induction fuel with
  | zero =>
      intro g c x y w h
      unfold internalRepaint
      exact comps_checkMM mml g
  | succ n ih =>
      intro g c x y w h
      unfold internalRepaint
      lift_lets
      intros
      refine Eq.trans ?_ (comps_checkMM mml g)
      repeat' split
      all_goals first
        | rfl
        | exact ih _ _ _ _ _ _
        | simp

theorem comps_repaintRect (mml : Bool) (fuel : Nat) (g : Gui) (c : Nat) (x y w h : Int) :
    (repaintRect mml fuel g c x y w h).comps = g.comps := by
  unfold repaintRect
  split
  · exact comps_internalRepaint mml fuel g c x y w h
  · rfl

theorem comps_repaintAll (mml : Bool) (fuel : Nat) (g : Gui) (c : Nat) :
    (repaintAll mml fuel g c).comps = g.comps :=
  comps_repaintRect mml fuel g c 0 0 _ _

theorem comps_repaintParent (mml : Bool) (fuel : Nat) (g : Gui) (c : Nat) :
    (repaintParent mml fuel g c).comps = g.comps := by
  unfold repaintParent
  split
  · exact comps_internalRepaint mml fuel g c 0 0 _ _
  · rfl

theorem comps_internalChildrenChanged (g : Gui) (c : Nat) :
    (internalChildrenChanged g c).comps = g.comps := by
  unfold internalChildrenChanged
  dsimp only
  split
  · rfl
  · split <;> rfl

theorem comps_sendVisibilityChangeMessage (g : Gui) (c : Nat) :
    (sendVisibilityChangeMessage g c).comps = g.comps := by
  unfold sendVisibilityChangeMessage
  dsimp only
  split <;> rfl

theorem comps_sendMovedResizedMessages (g : Gui) (c : Nat) (wasMoved wasResized : Bool) :
    (sendMovedResizedMessages g c wasMoved wasResized).comps = g.comps := by
  unfold sendMovedResizedMessages
  lift_lets
  intro g1 g2 g3 g4
  have h1 : g1.comps = g.comps := by
    unfold_let g1; split <;> rfl
  have h2 : g2.comps = g1.comps := by
    unfold_let g2; split <;> rfl
  have h3 : g3.comps = g2.comps := by
    unfold_let g3
    split
    · exact comps_foldl_logEvent (fun ch => .notify "parentSizeChanged" ch) _ g2
    · rfl
  have h4 : g4.comps = g3.comps := by
    unfold_let g4
    cases hp : (g3.comps c).parentComponent <;> rfl
  repeat' split
  all_goals
    simp [h1, h2, h3, h4]

theorem comps_internalBroughtToFront (fuel : Nat) (g : Gui) (c : Nat) :
    (internalBroughtToFront fuel g c).comps = g.comps := by
  unfold internalBroughtToFront
  lift_lets
  intro g1 g2 g3
  have h1 : g1.comps = g.comps := by unfold_let g1; split <;> rfl
  have h3 : g3.comps = g.comps := h1
  split
  · exact h1
  · split
    · exact h3
    · cases hm : getCurrentlyModalComponent g3 with
      | none => exact h3
      | some cm =>
          repeat' split
          all_goals exact h3

theorem comps_internalHierarchyChanged (fuel : Nat) :
    ∀ (g : Gui) (c : Nat), (internalHierarchyChanged g c fuel).comps = g.comps := by
  induction fuel with
  | zero => intro g c; rfl
  | succ n ih =>
      intro g c
      unfold internalHierarchyChanged
      dsimp only
      split
      · rfl
      · split
        · rfl
        · have hfold : ∀ (l : List Nat) (acc : Gui × Bool),
              ((l.foldl
                (fun (acc : Gui × Bool) ch =>
                  if acc.2 then acc
                  else
                    let g' := internalHierarchyChanged acc.1 ch n
                    if shouldBailOut g' c then (recordAssert g', true)
                    else (g', false))
                acc).1).comps = acc.1.comps := by
            intro l
            induction l with
            | nil => intro acc; rfl
            | cons ch rest ihl =>
                intro acc
                rw [List.foldl_cons]
                refine Eq.trans (ihl _) ?_
                dsimp only
                split
                · rfl
                · split
                  · exact Eq.trans (comps_recordAssert _) (ih acc.1 ch)
                  · exact ih acc.1 ch
          exact Eq.trans (hfold _ _) rfl

theorem comps_deepMouseListenerWalk (fuel : Nat) :
    ∀ (g : Gui) (o : Option Nat), (deepMouseListenerWalk g o fuel).comps = g.comps := by
  induction fuel with
  | zero => intro g o; cases o <;> rfl
  | succ n ih =>
      intro g o
      cases o with
      | none => rfl
      | some p =>
          unfold deepMouseListenerWalk
          lift_lets
          intro g1
          have h1 : g1.comps = g.comps := by
            unfold_let g1
            cases hm : (g.comps p).mouseListeners with
            | none => rfl
            | some ml =>
                dsimp only
                split
                · exact comps_foldl_logEvent (fun l => .mouseListenerMouseDown l) _ g
                · rfl
          exact Eq.trans (ih g1 _) h1

theorem comps_sendMouseEventDown (g : Gui) (c : Nat) (fuel : Nat) :
    (sendMouseEventDown g c fuel).comps = g.comps := by
  unfold sendMouseEventDown
  split
  · rfl
  · lift_lets
    intro g1
    have h1 : g1.comps = g.comps := by
      unfold_let g1
      cases hm : (g.comps c).mouseListeners with
      | none => rfl
      | some ml => exact comps_foldl_logEvent (fun l => .mouseListenerMouseDown l) _ g
    exact Eq.trans (comps_deepMouseListenerWalk fuel g1 _) h1

end Automello

namespace Automello

theorem sizesOK_updateComp {g : Gui} {c : Nat} {f : Comp → Comp} (hs : SizesOK g)
    (hf : ∀ co, 0 ≤ co.boundsW → 0 ≤ co.boundsH →
      0 ≤ (f co).boundsW ∧ 0 ≤ (f co).boundsH) :
    SizesOK (updateComp g c f) := by
  intro i
  rw [comps_updateComp]
  split
  · exact hf _ (hs i).1 (hs i).2
  · exact hs i

theorem sizesOK_setName (mml : Bool) (g : Gui) (c : Nat) (name : String) (hs : SizesOK g) :
    SizesOK (setName mml g c name) := by
  unfold setName
  lift_lets
  intro g1 g2 ga g3
  have hs1 : SizesOK g1 := sizesOK_of_comps_eq (comps_checkMM mml g) hs
  have hs2 : SizesOK g2 := by
    apply sizesOK_updateComp hs1
    intro co h1 h2
    exact ⟨h1, h2⟩
  have hc3 : g3.comps = g2.comps := by
    unfold_let g3 ga
    repeat' split
    all_goals rfl
  have hs3 : SizesOK g3 := sizesOK_of_comps_eq hc3 hs2
  split
  · exact hs1
  · split
    · exact hs3
    · exact hs3

theorem sizesOK_setVisible (mml : Bool) (fuel : Nat) (g : Gui) (c : Nat) (b : Bool)
    (hs : SizesOK g) : SizesOK (setVisible mml fuel g c b) := by
  unfold setVisible
  split
  · exact hs
  · lift_lets
    intro g1 g2 g3 g4 g5 g6 g7
    have hs2 : SizesOK g2 := by
      apply sizesOK_updateComp (sizesOK_of_comps_eq (comps_checkMM mml g) hs)
      intro co h1 h2
      exact ⟨h1, h2⟩
    have hs5 : SizesOK g5 :=
      sizesOK_of_comps_eq
        (Eq.trans (comps_sendVisibilityChangeMessage g4 c)
          (Eq.trans (comps_logEvent g3 _) (comps_internalRepaint mml fuel g2 c 0 0 _ _))) hs2
    have hc7 : g7.comps = g5.comps := by
      unfold_let g7 g6
      repeat' split
      all_goals first
        | rfl
        | exact Eq.trans (comps_internalHierarchyChanged fuel _ c) rfl
    split
    · exact sizesOK_of_comps_eq hc7 hs5
    · exact hs5

theorem sizesOK_moveChildInternal (mml : Bool) (fuel : Nat) (g : Gui) (p : Nat)
    (sourceIndex destIndex : Int) (hs : SizesOK g) :
    SizesOK (moveChildInternal mml fuel g p sourceIndex destIndex) := by
  unfold moveChildInternal
  split
  · exact hs
  · lift_lets
    intro g2 g3 g4
    have hc2 : g2.comps = g.comps := by
      unfold_let g2
      cases hj : juceGetOpt (g.comps p).childComponentList sourceIndex with
      | none => rfl
      | some ch => exact comps_repaintParent mml fuel g ch
    have hs3 : SizesOK g3 := by
      apply sizesOK_updateComp (sizesOK_of_comps_eq hc2 hs)
      intro co h1 h2
      exact ⟨h1, h2⟩
    exact sizesOK_of_comps_eq (Eq.trans (comps_internalChildrenChanged g4 p) rfl) hs3

theorem sizesOK_removeFromDesktop (mml : Bool) (g : Gui) (c : Nat) (hs : SizesOK g) :
    SizesOK (removeFromDesktop mml g c) := by
  unfold removeFromDesktop
  lift_lets
  intro g1 g2 g3
  have hc2 : g2.comps = g1.comps := by
    unfold_let g2
    split <;> rfl
  have hs3 : SizesOK g3 := by
    apply sizesOK_updateComp (sizesOK_of_comps_eq (Eq.trans hc2 (comps_checkMM mml g)) hs)
    intro co h1 h2
    exact ⟨h1, h2⟩
  split
  · exact hs3
  · exact sizesOK_of_comps_eq (comps_checkMM mml g) hs

theorem sizesOK_removeChildComponentIdx (mml : Bool) (fuel : Nat) (g : Gui) (p : Nat)
    (index : Int) (spe sce : Bool) (hs : SizesOK g) :
    SizesOK (removeChildComponentIdx mml fuel g p index spe sce).1 := by
  unfold removeChildComponentIdx
  lift_lets
  intro g1
  have hs1 : SizesOK g1 := sizesOK_of_comps_eq (comps_checkMM mml g) hs
  split
  · exact hs1
  · rename_i child heq
    lift_lets
    intro spe' g2 g3 g4 g5 g6
    have hc2 : g2.comps = g1.comps := by
      unfold_let g2
      split
      · exact Eq.trans (comps_repaintParent mml fuel _ child) rfl
      · rfl
    have hs4 : SizesOK g4 := by
      apply sizesOK_updateComp
      · apply sizesOK_updateComp (sizesOK_of_comps_eq hc2 hs1)
        intro co h1 h2
        exact ⟨h1, h2⟩
      · intro co h1 h2
        exact ⟨h1, h2⟩
    have hc6 : g6.comps = g4.comps := by
      unfold_let g6 g5
      repeat' split
      all_goals first
        | rfl
        | exact Eq.trans (comps_internalChildrenChanged _ p)
            (comps_internalHierarchyChanged fuel g4 child)
        | exact comps_internalHierarchyChanged fuel g4 child
        | exact comps_internalChildrenChanged _ p
    exact sizesOK_of_comps_eq hc6 hs4

theorem sizesOK_removeChildComponent (mml : Bool) (fuel : Nat) (g : Gui) (p child : Nat)
    (hs : SizesOK g) : SizesOK (removeChildComponent mml fuel g p child) :=
  sizesOK_removeChildComponentIdx mml fuel g p _ true true hs

theorem sizesOK_setBounds (mml : Bool) (fuel : Nat) (g : Gui) (c : Nat) (x y w0 h0 : Int)
    (hs : SizesOK g) : SizesOK (setBounds mml fuel g c x y w0 h0) := by
  unfold setBounds
  lift_lets
  intro g1 w h wasResized wasMoved showing gb g2 g3 g4 g5
  have hw : 0 ≤ w := by
    unfold_let w
    split
    · exact le_rfl
    · omega
  have hh : 0 ≤ h := by
    unfold_let h
    split
    · exact le_rfl
    · omega
  have hc2 : g2.comps = g1.comps := by
    unfold_let g2 gb
    repeat' split
    all_goals first
      | rfl
      | exact Eq.trans (comps_repaintParent mml fuel _ c) rfl
  have hs3 : SizesOK g3 := by
    apply sizesOK_updateComp (sizesOK_of_comps_eq (Eq.trans hc2 (comps_checkMM mml g)) hs)
    intro co h1 h2
    exact ⟨hw, hh⟩
  have hc5 : g5.comps = g3.comps := by
    unfold_let g5 g4
    repeat' split
    all_goals first
      | rfl
      | exact comps_repaintAll mml fuel g3 c
      | exact comps_repaintParent mml fuel g3 c
  split
  · exact sizesOK_of_comps_eq
      (Eq.trans (comps_sendMovedResizedMessages g5 c wasMoved wasResized) hc5) hs3
  · exact sizesOK_of_comps_eq (comps_checkMM mml g) hs

theorem sizesOK_setTopLeftPosition (mml : Bool) (fuel : Nat) (g : Gui) (c : Nat) (x y : Int)
    (hs : SizesOK g) : SizesOK (setTopLeftPosition mml fuel g c x y) :=
  sizesOK_setBounds mml fuel g c x y _ _ hs

end Automello

namespace Automello

theorem sizesOK_toFront (mml : Bool) (fuel : Nat) (g : Gui) (c : Nat) (fg : Bool)
    (hs : SizesOK g) : SizesOK (toFront mml fuel g c fg) := by
  unfold toFront
  lift_lets
  intro g1
  have hs1 : SizesOK g1 := sizesOK_of_comps_eq (comps_checkMM mml g) hs
  split
  · split <;> exact hs1
  · cases hp : (g1.comps c).parentComponent with
    | none => exact hs1
    | some p =>
        dsimp only
        have hbase : ∀ g' : Gui, SizesOK g' →
            SizesOK (logEvent (internalBroughtToFront fuel g' c)
              (GuiEvent.notify "grabKeyboardFocus" c)) := fun g' h =>
          sizesOK_of_comps_eq
            (Eq.trans (comps_logEvent _ _) (comps_internalBroughtToFront fuel g' c)) h
        repeat' split
        all_goals first
          | exact hs1
          | exact hbase _ hs1
          | exact hbase _ (sizesOK_moveChildInternal mml fuel g1 p _ _ hs1)
          | exact sizesOK_moveChildInternal mml fuel g1 p _ _ hs1

theorem sizesOK_toBack (mml : Bool) (fuel : Nat) (g : Gui) (c : Nat) (hs : SizesOK g) :
    SizesOK (toBack mml fuel g c) := by
  unfold toBack
  split
  · exact hs
  · cases hp : (g.comps c).parentComponent with
    | none => exact hs
    | some p =>
        dsimp only
        repeat' split
        all_goals first
          | exact hs
          | exact sizesOK_moveChildInternal mml fuel g p _ _ hs

theorem sizesOK_addChildComponent (mml : Bool) (fuel : Nat) (g : Gui) (p : Nat)
    (childOpt : Option Nat) (zOrder0 : Int) (hs : SizesOK g) :
    SizesOK (addChildComponent mml fuel g p childOpt zOrder0) := by
  unfold addChildComponent
  lift_lets
  intro g1
  have hs1 : SizesOK g1 := sizesOK_of_comps_eq (comps_checkMM mml g) hs
  split
  · exact hs1
  · rename_i child
    lift_lets
    intro g2 g3 g4 cl z zOrder g5 g6
    have hs2 : SizesOK g2 := by
      unfold_let g2
      cases hp : (g1.comps child).parentComponent with
      | none => exact sizesOK_removeFromDesktop mml g1 child hs1
      | some q => exact sizesOK_removeChildComponent mml fuel g1 q child hs1
    have hs4 : SizesOK g4 := by
      have hs3 : SizesOK g3 := by
        apply sizesOK_updateComp hs2
        intro co h1 h2
        exact ⟨h1, h2⟩
      unfold_let g4
      split
      · exact sizesOK_of_comps_eq (comps_repaintParent mml fuel g3 child) hs3
      · exact hs3
    have hs5 : SizesOK g5 := by
      apply sizesOK_updateComp hs4
      intro co h1 h2
      exact ⟨h1, h2⟩
    split
    · exact hs1
    · exact sizesOK_of_comps_eq
        (Eq.trans (comps_internalChildrenChanged g6 p)
          (comps_internalHierarchyChanged fuel g5 child)) hs5

theorem sizesOK_addToDesktop (mml : Bool) (fuel : Nat) (g : Gui) (c : Nat)
    (style : WindowStyle) (hs : SizesOK g) : SizesOK (addToDesktop mml fuel g c style) := by
  unfold addToDesktop
  lift_lets
  intro g1 styleWanted currentStyleFlags topLeft hadPeer g2 g3 g4 g5 g6 g7 g8 g9 g10
  have hs1 : SizesOK g1 := sizesOK_of_comps_eq (comps_checkMM mml g) hs
  have hs2 : SizesOK g2 := by
    unfold_let g2
    split
    · exact sizesOK_setTopLeftPosition mml fuel _ c _ _
        (sizesOK_removeFromDesktop mml g1 c hs1)
    · exact hs1
  have hs3 : SizesOK g3 := by
    unfold_let g3
    cases hp : (g2.comps c).parentComponent with
    | none => exact hs2
    | some q => exact sizesOK_removeChildComponent mml fuel g2 q c hs2
  have hs6 : SizesOK g6 := by
    apply sizesOK_updateComp
    · have h5 : g5.comps = g4.comps := rfl
      refine sizesOK_of_comps_eq h5 ?_
      apply sizesOK_updateComp hs3
      intro co h1 h2
      exact ⟨h1, h2⟩
    · intro co h1 h2
      exact ⟨h1, h2⟩
  have hc9 : g9.comps = g6.comps := by
    unfold_let g9
    split <;> rfl
  split
  · exact hs1
  · exact sizesOK_of_comps_eq
      (Eq.trans (comps_internalHierarchyChanged fuel g10 c)
        (Eq.trans (comps_repaintAll mml fuel g9 c) hc9)) hs6

theorem sizesOK_enterModalState (mml : Bool) (fuel : Nat) (g : Gui) (c : Nat)
    (tf del : Bool) (hs : SizesOK g) : SizesOK (enterModalState mml fuel g c tf del) := by
  unfold enterModalState
  lift_lets
  intro g1 g2 g3 g4 g5 g6 g7
  have hs2 : SizesOK g2 := by
    unfold_let g2
    split
    · exact sizesOK_of_comps_eq (comps_checkMM mml g) hs
    · exact sizesOK_of_comps_eq (comps_checkMM mml g) hs
  have hs6 : SizesOK g6 := by
    apply sizesOK_updateComp
    · have h5 : g5.comps = g2.comps := by
        unfold_let g5
        split <;> rfl
      exact sizesOK_of_comps_eq h5 hs2
    · intro co h1 h2
      exact ⟨h1, h2⟩
  have hs7 : SizesOK g7 := sizesOK_setVisible mml fuel g6 c true hs6
  split
  · exact hs2
  · split
    · exact hs7
    · exact hs7

theorem sizesOK_exitModalState (g : Gui) (c : Nat) (rv : Int) (hs : SizesOK g) :
    SizesOK (exitModalState g c rv) := by
  unfold exitModalState
  split
  · refine sizesOK_of_comps_eq (comps_logEvent _ _) ?_
    apply sizesOK_updateComp
    · exact sizesOK_of_comps_eq rfl hs
    · intro co h1 h2
      exact ⟨h1, h2⟩
  · exact hs

theorem sizesOK_addComponentListener (mml : Bool) (g : Gui) (c l : Nat) (hs : SizesOK g) :
    SizesOK (addComponentListener mml g c l) := by
  unfold addComponentListener
  apply sizesOK_updateComp (sizesOK_of_comps_eq (comps_checkMM mml g) hs)
  intro co h1 h2
  exact ⟨h1, h2⟩

theorem sizesOK_addMouseListener (mml : Bool) (g : Gui) (c l : Nat) (deep : Bool)
    (hs : SizesOK g) : SizesOK (addMouseListener mml g c l deep) := by
  unfold addMouseListener
  lift_lets
  intro g1 g2
  have hs2 : SizesOK g2 := by
    unfold_let g2
    split
    · exact sizesOK_of_comps_eq (comps_checkMM mml g) hs
    · exact sizesOK_of_comps_eq (comps_checkMM mml g) hs
  apply sizesOK_updateComp hs2
  intro co h1 h2
  exact ⟨h1, h2⟩

theorem sizesOK_removeMouseListener (mml : Bool) (g : Gui) (c l : Nat) (hs : SizesOK g) :
    SizesOK (removeMouseListener mml g c l) := by
  unfold removeMouseListener
  apply sizesOK_updateComp (sizesOK_of_comps_eq (comps_checkMM mml g) hs)
  intro co h1 h2
  exact ⟨h1, h2⟩

theorem sizesOK_bringToFrontOnClickWalk (mml : Bool) (fuel : Nat) (self : Nat) :
    ∀ (n : Nat) (g : Gui) (o : Option Nat), SizesOK g →
      SizesOK (bringToFrontOnClickWalk mml fuel g self o n).1 := by
  intro n
  induction n with
  | zero => intro g o hs; cases o <;> exact hs
  | succ k ih =>
      intro g o hs
      cases o with
      | none => exact hs
      | some c =>
          unfold bringToFrontOnClickWalk
          split
          · lift_lets
            intro g'
            have hs' : SizesOK g' := sizesOK_toFront mml fuel g c true hs
            split
            · exact hs'
            · exact ih g' _ hs'
          · exact ih g _ hs

theorem sizesOK_internalMouseDownRest (mml : Bool) (fuel : Nat) (g : Gui) (c : Nat)
    (hs : SizesOK g) : SizesOK (internalMouseDownRest mml fuel g c) := by
  unfold internalMouseDownRest
  lift_lets
  intro st
  have hst : SizesOK st.1 := sizesOK_bringToFrontOnClickWalk mml fuel c fuel g (some c) hs
  split
  · exact hst
  · lift_lets
    intro g1 focusing g2
    have hs2 : SizesOK g2 := by
      unfold_let g2 focusing
      split <;> exact hst
    split
    · exact hs2
    · lift_lets
      intro g3 g4 g5
      have hs3 : SizesOK g3 := by
        apply sizesOK_updateComp hs2
        intro co h1 h2
        exact ⟨h1, h2⟩
      have hs4 : SizesOK g4 := by
        unfold_let g4
        split
        · exact sizesOK_of_comps_eq (comps_repaintAll mml fuel g3 c) hs3
        · exact hs3
      split
      · exact hs4
      · exact sizesOK_of_comps_eq
          (Eq.trans (comps_sendMouseEventDown _ c fuel) (comps_logEvent g5 _)) hs4

theorem sizesOK_internalMouseDown (mml : Bool) (fuel : Nat) (g : Gui) (c : Nat)
    (hs : SizesOK g) : SizesOK (internalMouseDown mml fuel (fun _ h => h) g c) := by
  unfold internalMouseDown
  have hatt : SizesOK (internalModalInputAttempt (fun _ h => h) g) := by
    unfold internalModalInputAttempt
    cases hm : getCurrentlyModalComponent g with
    | none => exact hs
    | some m => exact hs
  split
  · lift_lets
    intro g1
    split
    · exact hatt
    · split
      · exact sizesOK_of_comps_eq (comps_logEvent _ _) hatt
      · exact sizesOK_internalMouseDownRest mml fuel _ c hatt
  · exact sizesOK_internalMouseDownRest mml fuel g c hs

theorem sizesOK_applyOp (mml : Bool) (fuel : Nat) (g : Gui) (op : Op) (hs : SizesOK g) :
    SizesOK (applyOp mml fuel g op) := by
  cases op with
  | opSetName c name => exact sizesOK_setName mml g c name hs
  | opSetVisible c b => exact sizesOK_setVisible mml fuel g c b hs
  | opAddToDesktop c style => exact sizesOK_addToDesktop mml fuel g c style hs
  | opRemoveFromDesktop c => exact sizesOK_removeFromDesktop mml g c hs
  | opSetBounds c x y w h => exact sizesOK_setBounds mml fuel g c x y w h hs
  | opSetTopLeftPosition c x y => exact sizesOK_setTopLeftPosition mml fuel g c x y hs
  | opAddChildComponent p child z => exact sizesOK_addChildComponent mml fuel g p child z hs
  | opRemoveChildComponentIdx p i => exact sizesOK_removeChildComponentIdx mml fuel g p i true true hs
  | opRemoveChildComponent p child => exact sizesOK_removeChildComponent mml fuel g p child hs
  | opToFront c b => exact sizesOK_toFront mml fuel g c b hs
  | opToBack c => exact sizesOK_toBack mml fuel g c hs
  | opEnterModalState c tf del => exact sizesOK_enterModalState mml fuel g c tf del hs
  | opExitModalState c rv => exact sizesOK_exitModalState g c rv hs
  | opAddComponentListener c l => exact sizesOK_addComponentListener mml g c l hs
  | opAddMouseListener c l deep => exact sizesOK_addMouseListener mml g c l deep hs
  | opRemoveMouseListener c l => exact sizesOK_removeMouseListener mml g c l hs
  | opInternalRepaint c x y w h =>
      exact sizesOK_of_comps_eq (comps_internalRepaint mml fuel g c x y w h) hs
  | opInternalMouseDown c => exact sizesOK_internalMouseDown mml fuel g c hs
  | opUserTriedToCloseWindow c => exact hs

theorem sizesOK_applyOps (mml : Bool) (fuel : Nat) :
    ∀ (ops : List Op) (g : Gui), SizesOK g → SizesOK (applyOps mml fuel g ops) := by
  intro ops
  induction ops with
  | nil => intro g hs; exact hs
  | cons op rest ih =>
      intro g hs
      exact ih _ (sizesOK_applyOp mml fuel g op hs)

theorem sizesOK_initGui : SizesOK initGui :=
  fun _ => ⟨le_rfl, le_rfl⟩

/-! ## Claim C8: bounds are never negative -/

/-- C8: `Component::setBounds` clamps a negative width or height to zero before
storing (`w = jmax (w, 0); h = jmax (h, 0);`): a call with `w < 0` produces
exactly the same state as the same call with `w = 0`, symmetrically for `h`,
and after any sequence of modelled operations starting from the initial state
every component's `getWidth()` and `getHeight()` are nonnegative. -/
theorem claim_C8_bounds_nonnegative :
    (∀ (mml : Bool) (fuel : Nat) (g : Gui) (c : Nat) (x y w h : Int), w < 0 →
        setBounds mml fuel g c x y w h = setBounds mml fuel g c x y 0 h) ∧
    (∀ (mml : Bool) (fuel : Nat) (g : Gui) (c : Nat) (x y w h : Int), h < 0 →
        setBounds mml fuel g c x y w h = setBounds mml fuel g c x y w 0) ∧
    (∀ (mml : Bool) (fuel : Nat) (ops : List Op) (c : Nat),
        0 ≤ ((applyOps mml fuel initGui ops).comps c).getWidth ∧
        0 ≤ ((applyOps mml fuel initGui ops).comps c).getHeight) := by
  refine ⟨?_, ?_, ?_⟩
  · intro mml fuel g c x y w h hw
    unfold setBounds
    rw [if_pos hw, if_neg (lt_irrefl (0 : Int))]
  · intro mml fuel g c x y w h hh
    unfold setBounds
    rw [if_pos hh, if_neg (lt_irrefl (0 : Int))]
  · intro mml fuel ops c
    exact sizesOK_applyOps mml fuel ops initGui sizesOK_initGui c

/-- Witness for C8 at concrete inputs. -/
theorem claim_C8_witness :
    setBounds true 5 initGui 0 1 2 (-3) 4 = setBounds true 5 initGui 0 1 2 0 4 ∧
    setBounds true 5 initGui 0 1 2 3 (-4) = setBounds true 5 initGui 0 1 2 3 0 ∧
    0 ≤ ((applyOps true 5 initGui [Op.opSetBounds 0 1 2 (-3) 4]).comps 0).getWidth :=
  ⟨claim_C8_bounds_nonnegative.1 true 5 initGui 0 1 2 (-3) 4 (by decide),
   claim_C8_bounds_nonnegative.2.1 true 5 initGui 0 1 2 3 (-4) (by decide),
   (claim_C8_bounds_nonnegative.2.2 true 5 [Op.opSetBounds 0 1 2 (-3) 4] 0).1⟩

/-! ## Claim C9: tree-shape preservation — list-level infrastructure -/

theorem mem_of_getElemOpt {l : List Nat} {n : Nat} {a : Nat} (h : l[n]? = some a) : a ∈ l := by
  obtain ⟨hlt, heq⟩ := List.getElem?_eq_some_iff.1 h
  exact heq ▸ List.getElem_mem hlt

theorem insertIdx_perm_cons (a : Nat) :
    ∀ (n : Nat) (l : List Nat), n ≤ l.length → (l.insertIdx n a).Perm (a :: l) := by
  intro n
  induction n with
  | zero =>
      intro l _
      rw [List.insertIdx_zero]
  | succ m ih =>
      intro l hl
      cases l with
      | nil => simp at hl
      | cons x xs =>
          rw [List.insertIdx_succ_cons]
          exact ((ih xs (Nat.le_of_succ_le_succ hl)).cons x).trans (List.Perm.swap a x xs)

theorem juceInsert_perm (i : Int) (a : Nat) (l : List Nat) : (juceInsert i a l).Perm (a :: l) := by
  unfold juceInsert
  split
  · rename_i h
    exact insertIdx_perm_cons a i.toNat l (by omega)
  · exact List.perm_append_singleton a l

theorem mem_juceInsert (i : Int) (a b : Nat) (l : List Nat) :
    b ∈ juceInsert i a l ↔ b = a ∨ b ∈ l := by
  rw [(juceInsert_perm i a l).mem_iff, List.mem_cons]

theorem nodup_juceInsert (i : Int) (a : Nat) (l : List Nat) (hn : l.Nodup) (ha : a ∉ l) :
    (juceInsert i a l).Nodup := by
  rw [(juceInsert_perm i a l).nodup_iff]
  exact List.nodup_cons.2 ⟨ha, hn⟩

theorem nodup_juceRemoveIdx (l : List Nat) (i : Int) (hn : l.Nodup) :
    (juceRemoveIdx l i).Nodup := by
  unfold juceRemoveIdx
  split
  · exact List.Nodup.sublist (List.eraseIdx_sublist l i.toNat) hn
  · exact hn

theorem juceGetOpt_eq_some (l : List Nat) (i : Int) (a : Nat)
    (h : juceGetOpt l i = some a) :
    0 ≤ i ∧ i < (l.length : Int) ∧ l[i.toNat]? = some a := by
  unfold juceGetOpt at h
  split at h
  · rename_i hr
    exact ⟨hr.1, hr.2, h⟩
  · exact Option.noConfusion h

theorem not_mem_eraseIdx_self (l : List Nat) (k : Nat) (a : Nat)
    (hn : l.Nodup) (hget : l[k]? = some a) : a ∉ l.eraseIdx k := by
  intro hmem
  rw [List.mem_eraseIdx_iff_getElem?] at hmem
  obtain ⟨i, hik, hi⟩ := hmem
  have hilt : i < l.length := by
    obtain ⟨h, _⟩ := List.getElem?_eq_some_iff.1 hi
    exact h
  exact hik (List.getElem?_inj hilt hn (hi.trans hget.symm))

theorem mem_eraseIdx_of_ne (l : List Nat) (k : Nat) (a c : Nat)
    (hget : l[k]? = some a) (hc : c ∈ l) (hne : c ≠ a) : c ∈ l.eraseIdx k := by
  rw [List.mem_eraseIdx_iff_getElem?]
  obtain ⟨i, hi⟩ := List.getElem?_of_mem hc
  refine ⟨i, ?_, hi⟩
  intro hik
  subst hik
  rw [hget] at hi
  exact hne (Option.some.inj hi).symm

theorem not_mem_juceRemoveIdx_self (l : List Nat) (i : Int) (a : Nat)
    (hn : l.Nodup) (h : juceGetOpt l i = some a) : a ∉ juceRemoveIdx l i := by
  obtain ⟨h0, hlen, hget⟩ := juceGetOpt_eq_some l i a h
  unfold juceRemoveIdx
  rw [if_pos ⟨h0, hlen⟩]
  exact not_mem_eraseIdx_self l i.toNat a hn hget

theorem mem_juceRemoveIdx_of_ne (l : List Nat) (i : Int) (a c : Nat)
    (h : juceGetOpt l i = some a) (hc : c ∈ l) (hne : c ≠ a) : c ∈ juceRemoveIdx l i := by
  obtain ⟨h0, hlen, hget⟩ := juceGetOpt_eq_some l i a h
  unfold juceRemoveIdx
  rw [if_pos ⟨h0, hlen⟩]
  exact mem_eraseIdx_of_ne l i.toNat a c hget hc hne

theorem mem_of_mem_juceRemoveIdx (l : List Nat) (i : Int) (c : Nat)
    (hc : c ∈ juceRemoveIdx l i) : c ∈ l := by
  unfold juceRemoveIdx at hc
  split at hc
  · exact List.eraseIdx_subset l i.toNat hc
  · exact hc

theorem juceIndexOf_spec (a : Nat) :
    ∀ l : List Nat, a ∈ l →
      0 ≤ juceIndexOf l a ∧ juceIndexOf l a < (l.length : Int) ∧
        l[(juceIndexOf l a).toNat]? = some a := by
  intro l
  induction l with
  | nil =>
      intro h
      exact absurd h (List.not_mem_nil a)
  | cons x rest ih =>
      intro hmem
      have heq : juceIndexOf (x :: rest) a
          = if x = a then 0 else
              (if juceIndexOf rest a < 0 then -1 else juceIndexOf rest a + 1) := rfl
      rw [heq]
      by_cases hx : x = a
      · rw [if_pos hx]
        refine ⟨le_rfl, ?_, ?_⟩
        · rw [List.length_cons]
          omega
        · show (x :: rest)[(0 : Nat)]? = some a
          rw [List.getElem?_cons_zero, hx]
      · rw [if_neg hx]
        have hmem' : a ∈ rest := by
          rcases List.mem_cons.mp hmem with h | h
          · exact absurd h.symm hx
          · exact h
        obtain ⟨h0, hlen, hget⟩ := ih hmem'
        rw [if_neg (by omega : ¬ juceIndexOf rest a < 0)]
        refine ⟨by omega, ?_, ?_⟩
        · rw [List.length_cons]
          omega
        · have ht : (juceIndexOf rest a + 1).toNat = (juceIndexOf rest a).toNat + 1 := by
            omega
          rw [ht, List.getElem?_cons_succ]
          exact hget

theorem juceGetOpt_juceIndexOf (l : List Nat) (a : Nat) (h : a ∈ l) :
    juceGetOpt l (juceIndexOf l a) = some a := by
  obtain ⟨h0, hlen, hget⟩ := juceIndexOf_spec a l h
  unfold juceGetOpt
  rw [if_pos ⟨h0, hlen⟩]
  exact hget

theorem updateComp_self (g : Gui) (c : Nat) (f : Comp → Comp) :
    (updateComp g c f).comps c = f (g.comps c) := by
  rw [comps_updateComp]
  rw [if_pos rfl]

theorem wf_of_comps_eq {g g' : Gui} (h : g'.comps = g.comps) (hw : WF g) : WF g' := by
  unfold WF at *
  rw [h]
  exact hw

theorem comps_updateComp_congr {g g' : Gui} (h : g.comps = g'.comps) (c : Nat)
    (f : Comp → Comp) : (updateComp g c f).comps = (updateComp g' c f).comps := by
  funext i
  rw [comps_updateComp, comps_updateComp, h]

theorem wf_updateComp_fields {g : Gui} {c : Nat} {f : Comp → Comp} (hw : WF g)
    (hcl : ∀ co, (f co).childComponentList = co.childComponentList)
    (hpr : ∀ co, (f co).parentComponent = co.parentComponent) :
    WF (updateComp g c f) := by
  obtain ⟨hnd, hpc, hcp⟩ := hw
  have hCL : ∀ i, ((updateComp g c f).comps i).childComponentList
      = (g.comps i).childComponentList := by
    intro i
    rw [comps_updateComp]
    split
    · exact hcl _
    · rfl
  have hPar : ∀ i, ((updateComp g c f).comps i).parentComponent
      = (g.comps i).parentComponent := by
    intro i
    rw [comps_updateComp]
    split
    · exact hpr _
    · rfl
  refine ⟨?_, ?_, ?_⟩
  · intro q
    rw [hCL q]
    exact hnd q
  · intro q cc hc
    rw [hCL q] at hc
    rw [hPar cc]
    exact hpc q cc hc
  · intro cc q hq
    rw [hPar cc] at hq
    rw [hCL q]
    exact hcp cc q hq

/-- Tree-shape preservation for the two-step state change inside
`removeChildComponent (index, …)`: erase the child-list entry, null the removed
child's parent pointer. -/
theorem wf_removeCore (g : Gui) (p : Nat) (index : Int) (child : Nat)
    (hw : WF g)
    (hget : juceGetOpt (g.comps p).childComponentList index = some child) :
    WF (updateComp (updateComp g p fun co =>
          { co with childComponentList := juceRemoveIdx co.childComponentList index })
        child fun co => { co with parentComponent := none }) := by
  obtain ⟨hnd, hpc, hcp⟩ := hw
  have hCL : ∀ i, ((updateComp (updateComp g p fun co =>
          { co with childComponentList := juceRemoveIdx co.childComponentList index })
        child fun co => { co with parentComponent := none }).comps i).childComponentList
      = if i = p then juceRemoveIdx (g.comps i).childComponentList index
        else (g.comps i).childComponentList := by
    intro i
    rw [comps_updateComp, comps_updateComp]
    split_ifs <;> rfl
  have hPar : ∀ i, ((updateComp (updateComp g p fun co =>
          { co with childComponentList := juceRemoveIdx co.childComponentList index })
        child fun co => { co with parentComponent := none }).comps i).parentComponent
      = if i = child then none else (g.comps i).parentComponent := by
    intro i
    rw [comps_updateComp, comps_updateComp]
    split_ifs <;> rfl
  refine ⟨?_, ?_, ?_⟩
  · intro q
    rw [hCL q]
    split
    · exact nodup_juceRemoveIdx _ index (hnd q)
    · exact hnd q
  · intro q c hc
    rw [hCL q] at hc
    rw [hPar c]
    by_cases hqp : q = p
    · rw [if_pos hqp] at hc
      subst hqp
      have hne : c ≠ child := by
        intro h
        subst h
        exact not_mem_juceRemoveIdx_self _ index c (hnd q) hget hc
      rw [if_neg hne]
      exact hpc q c (mem_of_mem_juceRemoveIdx _ index c hc)
    · rw [if_neg hqp] at hc
      have hpar := hpc q c hc
      have hne : c ≠ child := by
        intro h
        subst h
        have hmemp : c ∈ (g.comps p).childComponentList := by
          obtain ⟨h0, hlen, hgetE⟩ := juceGetOpt_eq_some _ index c hget
          exact mem_of_getElemOpt hgetE
        have hp2 := hpc p c hmemp
        rw [hp2] at hpar
        exact hqp (Option.some.inj hpar).symm
      rw [if_neg hne]
      exact hpar
  · intro c q hq
    rw [hPar c] at hq
    rw [hCL q]
    by_cases hcc : c = child
    · rw [if_pos hcc] at hq
      cases hq
    · rw [if_neg hcc] at hq
      have hmem := hcp c q hq
      by_cases hqp : q = p
      · subst hqp
        rw [if_pos rfl]
        exact mem_juceRemoveIdx_of_ne _ index child c hget hmem hcc
      · rw [if_neg hqp]
        exact hmem

/-- Tree-shape preservation for the two-step state change inside
`addChildComponent`: point the (previously parentless) child at the new parent
and insert it once into the child list. -/
theorem wf_addCore (g : Gui) (p child : Nat) (z : Int)
    (hw : WF g) (hpar : (g.comps child).parentComponent = none) :
    WF (updateComp (updateComp g child fun co => { co with parentComponent := some p })
        p fun co => { co with childComponentList := juceInsert z child co.childComponentList }) := by
  obtain ⟨hnd, hpc, hcp⟩ := hw
  have hnm : ∀ q, child ∉ (g.comps q).childComponentList := by
    intro q hq
    rw [hpc q child hq] at hpar
    cases hpar
  have hCL : ∀ i, ((updateComp (updateComp g child fun co =>
          { co with parentComponent := some p })
        p fun co =>
          { co with childComponentList := juceInsert z child co.childComponentList }).comps
            i).childComponentList
      = if i = p then juceInsert z child (g.comps i).childComponentList
        else (g.comps i).childComponentList := by
    intro i
    rw [comps_updateComp, comps_updateComp]
    split_ifs <;> rfl
  have hPar : ∀ i, ((updateComp (updateComp g child fun co =>
          { co with parentComponent := some p })
        p fun co =>
          { co with childComponentList := juceInsert z child co.childComponentList }).comps
            i).parentComponent
      = if i = child then some p else (g.comps i).parentComponent := by
    intro i
    rw [comps_updateComp, comps_updateComp]
    split_ifs <;> rfl
  refine ⟨?_, ?_, ?_⟩
  · intro q
    rw [hCL q]
    split
    · exact nodup_juceInsert z child _ (hnd q) (hnm q)
    · exact hnd q
  · intro q c hc
    rw [hCL q] at hc
    rw [hPar c]
    by_cases hqp : q = p
    · rw [if_pos hqp] at hc
      rcases (mem_juceInsert z child c _).1 hc with hcc | hcm
      · subst hcc
        rw [if_pos rfl, hqp]
      · have hne : c ≠ child := fun h => hnm q (h ▸ hcm)
        rw [if_neg hne]
        exact hpc q c hcm
    · rw [if_neg hqp] at hc
      have hne : c ≠ child := fun h => hnm q (h ▸ hc)
      rw [if_neg hne]
      exact hpc q c hc
  · intro c q hq
    rw [hPar c] at hq
    rw [hCL q]
    by_cases hcc : c = child
    · rw [if_pos hcc] at hq
      have hqp : q = p := (Option.some.inj hq).symm
      rw [if_pos hqp, hcc]
      exact (mem_juceInsert z child child _).2 (Or.inl rfl)
    · rw [if_neg hcc] at hq
      have hmem := hcp c q hq
      by_cases hqp : q = p
      · rw [if_pos hqp]
        refine (mem_juceInsert z child c _).2 (Or.inr ?_)
        exact hmem
      · rw [if_neg hqp]
        exact hmem

theorem wf_removeFromDesktop (mml : Bool) (g : Gui) (c : Nat) (hw : WF g) :
    WF (removeFromDesktop mml g c) := by
  unfold removeFromDesktop
  lift_lets
  intro g1 g2 g3
  have hw1 : WF g1 := wf_of_comps_eq (comps_checkMM mml g) hw
  have hw2 : WF g2 := by
    unfold_let g2
    split
    · exact wf_of_comps_eq (rfl : (recordAssert g1).comps = g1.comps) hw1
    · exact hw1
  have hw3 : WF g3 := by
    unfold_let g3
    exact wf_updateComp_fields hw2 (fun co => rfl) (fun co => rfl)
  split
  · refine wf_of_comps_eq ?_ hw3
    rfl
  · exact hw1

theorem parent_removeFromDesktop (mml : Bool) (g : Gui) (c : Nat) (i : Nat) :
    ((removeFromDesktop mml g c).comps i).parentComponent
      = (g.comps i).parentComponent := by
  unfold removeFromDesktop
  lift_lets
  intro g1 g2 g3
  have hc1 : g1.comps = g.comps := comps_checkMM mml g
  have hc2 : g2.comps = g1.comps := by
    unfold_let g2
    split <;> rfl
  have hp3 : ∀ j, (g3.comps j).parentComponent = (g2.comps j).parentComponent := by
    intro j
    unfold_let g3
    rw [comps_updateComp]
    split <;> rfl
  split
  · show ((g3.comps i)).parentComponent = _
    rw [hp3 i, hc2, hc1]
  · show ((g1.comps i)).parentComponent = _
    rw [hc1]

theorem snd_removeChildComponentIdx (mml : Bool) (fuel : Nat) (g : Gui) (p : Nat)
    (index : Int) (spe sce : Bool) :
    (removeChildComponentIdx mml fuel g p index spe sce).2
      = juceGetOpt (g.comps p).childComponentList index := by
  unfold removeChildComponentIdx
  lift_lets
  intro g1
  have hc1 : g1.comps = g.comps := comps_checkMM mml g
  rw [hc1]
  cases hj : juceGetOpt (g.comps p).childComponentList index with
  | none => rfl
  | some ch => rfl

theorem parent_removeChildComponentIdx (mml : Bool) (fuel : Nat) (g : Gui) (p : Nat)
    (index : Int) (spe sce : Bool) (child : Nat)
    (heq : juceGetOpt (g.comps p).childComponentList index = some child) :
    (((removeChildComponentIdx mml fuel g p index spe sce).1).comps child).parentComponent
      = none := by
  unfold removeChildComponentIdx
  lift_lets
  intro g1
  have hc1 : g1.comps = g.comps := comps_checkMM mml g
  split
  · rename_i hnone
    rw [hc1, heq] at hnone
    cases hnone
  · rename_i child' heq'
    rw [hc1, heq] at heq'
    have hcc : child' = child := (Option.some.inj heq').symm
    subst hcc
    lift_lets
    intro spe' g2 g3 g4 g5 g6
    have hc6 : g6.comps = g4.comps := by
      unfold_let g6 g5
      repeat' split
      all_goals first
        | rfl
        | exact Eq.trans (comps_internalChildrenChanged _ p)
            (comps_internalHierarchyChanged fuel g4 child')
        | exact comps_internalHierarchyChanged fuel g4 child'
        | exact comps_internalChildrenChanged _ p
    show ((g6.comps child')).parentComponent = none
    rw [hc6]
    unfold_let g4
    rw [updateComp_self]

theorem wf_removeChildComponentIdx (mml : Bool) (fuel : Nat) (g : Gui) (p : Nat)
    (index : Int) (spe sce : Bool) (hw : WF g) :
    WF (removeChildComponentIdx mml fuel g p index spe sce).1 := by
  unfold removeChildComponentIdx
  lift_lets
  intro g1
  have hw1 : WF g1 := wf_of_comps_eq (comps_checkMM mml g) hw
  split
  · exact hw1
  · rename_i child heq
    lift_lets
    intro spe' g2 g3 g4 g5 g6
    have hc2 : g2.comps = g1.comps := by
      unfold_let g2
      split
      · exact Eq.trans (comps_repaintParent mml fuel _ child) rfl
      · rfl
    have hw4 : WF g4 := by
      refine wf_of_comps_eq ?_
        (wf_removeCore g2 p index child (wf_of_comps_eq hc2 hw1) (by rw [hc2]; exact heq))
      unfold_let g4 g3
      rfl
    have hc6 : g6.comps = g4.comps := by
      unfold_let g6 g5
      repeat' split
      all_goals first
        | rfl
        | exact Eq.trans (comps_internalChildrenChanged _ p)
            (comps_internalHierarchyChanged fuel g4 child)
        | exact comps_internalHierarchyChanged fuel g4 child
        | exact comps_internalChildrenChanged _ p
    exact wf_of_comps_eq hc6 hw4

theorem wf_removeChildComponent (mml : Bool) (fuel : Nat) (g : Gui) (p child : Nat)
    (hw : WF g) : WF (removeChildComponent mml fuel g p child) :=
  wf_removeChildComponentIdx mml fuel g p _ true true hw

theorem parent_removeChildComponent (mml : Bool) (fuel : Nat) (g : Gui) (p child : Nat)
    (hmem : child ∈ (g.comps p).childComponentList) :
    ((removeChildComponent mml fuel g p child).comps child).parentComponent = none :=
  parent_removeChildComponentIdx mml fuel g p _ true true child
    (juceGetOpt_juceIndexOf _ child hmem)

theorem wf_addChildComponent (mml : Bool) (fuel : Nat) (g : Gui) (p : Nat)
    (childOpt : Option Nat) (zOrder0 : Int) (hw : WF g) :
    WF (addChildComponent mml fuel g p childOpt zOrder0) := by
  unfold addChildComponent
  lift_lets
  intro g1
  have hw1 : WF g1 := wf_of_comps_eq (comps_checkMM mml g) hw
  split
  · exact hw1
  · rename_i child
    lift_lets
    intro g2 g3 g4 cl z zOrder g5 g6
    have hw2 : WF g2 := by
      unfold_let g2
      cases hp : (g1.comps child).parentComponent with
      | none => exact wf_removeFromDesktop mml g1 child hw1
      | some q => exact wf_removeChildComponent mml fuel g1 q child hw1
    have hp2 : (g2.comps child).parentComponent = none := by
      unfold_let g2
      cases hp : (g1.comps child).parentComponent with
      | none =>
          rw [parent_removeFromDesktop mml g1 child child]
          exact hp
      | some q =>
          exact parent_removeChildComponent mml fuel g1 q child (hw1.2.2 child q hp)
    have hw5 : WF g5 := by
      have hc4 : g4.comps = g3.comps := by
        unfold_let g4
        split
        · exact comps_repaintParent mml fuel g3 child
        · rfl
      refine wf_of_comps_eq ?_ (wf_addCore g2 p child zOrder hw2 hp2)
      unfold_let g5
      exact comps_updateComp_congr hc4 p _
    split
    · exact hw1
    · exact wf_of_comps_eq
        (Eq.trans (comps_internalChildrenChanged g6 p)
          (comps_internalHierarchyChanged fuel g5 child)) hw5

/-- C9: hierarchy operations preserve the tree shape.  `addChildComponent`
(after detaching the child from its previous parent or the desktop) and
`removeChildComponent (index, …)` preserve the invariant that every child list
is duplicate-free and child lists agree with parent pointers both ways;
`removeChildComponent` returns exactly the child-list entry at the index and
resets the removed child's `parentComponent` to null; and under the invariant a
component occurs in at most one child list. -/
theorem claim_C9_tree_shape :
    (∀ (mml : Bool) (fuel : Nat) (g : Gui) (p : Nat) (childOpt : Option Nat) (z : Int),
        WF g → WF (addChildComponent mml fuel g p childOpt z)) ∧
    (∀ (mml : Bool) (fuel : Nat) (g : Gui) (p : Nat) (index : Int) (spe sce : Bool),
        WF g → WF (removeChildComponentIdx mml fuel g p index spe sce).1) ∧
    (∀ (mml : Bool) (fuel : Nat) (g : Gui) (p : Nat) (index : Int) (spe sce : Bool),
        (removeChildComponentIdx mml fuel g p index spe sce).2
          = juceGetOpt (g.comps p).childComponentList index) ∧
    (∀ (mml : Bool) (fuel : Nat) (g : Gui) (p : Nat) (index : Int) (spe sce : Bool)
        (child : Nat),
        (removeChildComponentIdx mml fuel g p index spe sce).2 = some child →
        (((removeChildComponentIdx mml fuel g p index spe sce).1).comps child).parentComponent
          = none) ∧
    (∀ g : Gui, WF g → ∀ c p q : Nat,
        c ∈ (g.comps p).childComponentList → c ∈ (g.comps q).childComponentList → p = q) := by
  refine ⟨?_, ?_, ?_, ?_, ?_⟩
  · intro mml fuel g p childOpt z hw
    exact wf_addChildComponent mml fuel g p childOpt z hw
  · intro mml fuel g p index spe sce hw
    exact wf_removeChildComponentIdx mml fuel g p index spe sce hw
  · intro mml fuel g p index spe sce
    exact snd_removeChildComponentIdx mml fuel g p index spe sce
  · intro mml fuel g p index spe sce child h
    rw [snd_removeChildComponentIdx] at h
    exact parent_removeChildComponentIdx mml fuel g p index spe sce child h
  · intro g hw c p q h1 h2
    have e1 := hw.2.1 p c h1
    have e2 := hw.2.1 q c h2
    rw [e1] at e2
    exact Option.some.inj e2

/-- Witness for C9 at concrete inputs: the pristine state is well-formed, the
operations keep it so, and removing child `2` of component `1` in the chain
fixture nulls its parent pointer. -/
theorem claim_C9_witness :
    WF (addChildComponent true 3 initGui 0 (some 1) 0) ∧
    WF (removeChildComponentIdx true 3 initGui 0 0 true true).1 ∧
    (((removeChildComponentIdx true 3 chainFixture 1 0 true true).1).comps 2).parentComponent
      = none := by
  have hwInit : WF initGui :=
    ⟨fun _ => List.nodup_nil, fun p c h => absurd h (List.not_mem_nil c),
     fun c p h => Option.noConfusion h⟩
  exact ⟨claim_C9_tree_shape.1 true 3 initGui 0 (some 1) 0 hwInit,
    claim_C9_tree_shape.2.1 true 3 initGui 0 0 true true hwInit,
    claim_C9_tree_shape.2.2.2.1 true 3 chainFixture 1 0 true true 2 (by decide)⟩

/-! ## Claim C5: reentrancy-safe listener dispatch — unfolding equations -/

theorem mouseOwnLoop_zero (eff : Callback → DState → DState) (comp : Nat) (s : DState)
    (tr : DTrace) : mouseOwnLoop eff comp s tr 0 = ⟨s, tr, false⟩ := by
  conv_lhs => unfold mouseOwnLoop

theorem mouseOwnLoop_succ (eff : Callback → DState → DState) (comp : Nat) (s : DState)
    (tr : DTrace) (i : Nat) :
    mouseOwnLoop eff comp s tr (i + 1)
      = (let target := (mouseListenersOf s comp).getD i 0
         let r := invokeCb eff comp (.mouseCb target) s tr
         if dBail r.1 comp then ⟨r.1, r.2, true⟩
         else mouseOwnLoop eff comp r.1 r.2 (min i (mouseListenersOf r.1 comp).length)) := by
  conv_lhs => unfold mouseOwnLoop

theorem mouseDeepLoop_zero (eff : Callback → DState → DState) (comp p : Nat) (s : DState)
    (tr : DTrace) : mouseDeepLoop eff comp p s tr 0 = ⟨s, tr, false⟩ := by
  conv_lhs => unfold mouseDeepLoop

theorem mouseDeepLoop_succ (eff : Callback → DState → DState) (comp p : Nat) (s : DState)
    (tr : DTrace) (i : Nat) :
    mouseDeepLoop eff comp p s tr (i + 1)
      = (let target := (mouseListenersOf s p).getD i 0
         let r := invokeCb eff comp (.mouseCb target) s tr
         if dBail r.1 comp || dBail r.1 p then ⟨r.1, r.2, true⟩
         else mouseDeepLoop eff comp p r.1 r.2 (min i (numDeepOf r.1 p).toNat)) := by
  conv_lhs => unfold mouseDeepLoop

theorem mouseParentWalk_none (eff : Callback → DState → DState) (comp : Nat) (s : DState)
    (tr : DTrace) (fuel : Nat) : mouseParentWalk eff comp none s tr fuel = ⟨s, tr, false⟩ := by
  conv_lhs => unfold mouseParentWalk

theorem mouseParentWalk_some_zero (eff : Callback → DState → DState) (comp p : Nat)
    (s : DState) (tr : DTrace) : mouseParentWalk eff comp (some p) s tr 0 = ⟨s, tr, false⟩ := by
  conv_lhs => unfold mouseParentWalk

theorem mouseParentWalk_some_succ (eff : Callback → DState → DState) (comp p : Nat)
    (s : DState) (tr : DTrace) (fuel : Nat) :
    mouseParentWalk eff comp (some p) s tr (fuel + 1)
      = (if 0 < numDeepOf s p then
           let r := mouseDeepLoop eff comp p s tr (numDeepOf s p).toNat
           if r.early then r
           else mouseParentWalk eff comp (r.st.parentOf p) r.st r.tr fuel
         else mouseParentWalk eff comp (s.parentOf p) s tr fuel) := by
  conv_lhs => unfold mouseParentWalk

theorem callCheckedLoop_nil (eff : Callback → DState → DState) (comp : Nat)
    (mk : Nat → Callback) (s : DState) (tr : DTrace) :
    callCheckedLoop eff comp mk [] s tr = (s, tr) := by
  conv_lhs => unfold callCheckedLoop

theorem callCheckedLoop_cons (eff : Callback → DState → DState) (comp : Nat)
    (mk : Nat → Callback) (l : Nat) (rest : List Nat) (s : DState) (tr : DTrace) :
    callCheckedLoop eff comp mk (l :: rest) s tr
      = (if dBail s comp then (s, tr)
         else
           let r := invokeCb eff comp (mk l) s tr
           callCheckedLoop eff comp mk rest r.1 r.2) := by
  conv_lhs => unfold callCheckedLoop

theorem parentSizeChangedLoop_zero (eff : Callback → DState → DState) (comp : Nat)
    (s : DState) (tr : DTrace) : parentSizeChangedLoop eff comp s tr 0 = ⟨s, tr, false⟩ := by
  conv_lhs => unfold parentSizeChangedLoop

theorem parentSizeChangedLoop_succ (eff : Callback → DState → DState) (comp : Nat)
    (s : DState) (tr : DTrace) (i : Nat) :
    parentSizeChangedLoop eff comp s tr (i + 1)
      = (let target := (s.childrenOf comp).getD i 0
         let r := invokeCb eff comp (.parentSizeChangedCb target) s tr
         if dBail r.1 comp then ⟨r.1, r.2, true⟩
         else parentSizeChangedLoop eff comp r.1 r.2 (min i (r.1.childrenOf comp).length)) := by
  conv_lhs => unfold parentSizeChangedLoop

theorem hierarchyDispatch_zero (eff : Callback → DState → DState) (comp : Nat) (s : DState)
    (tr : DTrace) : hierarchyDispatch eff comp s tr 0 = (s, tr) := by
  conv_lhs => unfold hierarchyDispatch

theorem hierarchyDispatch_succ (eff : Callback → DState → DState) (comp : Nat) (s : DState)
    (tr : DTrace) (fuel : Nat) :
    hierarchyDispatch eff comp s tr (fuel + 1)
      = (let r1 := invokeCb eff comp (.parentHierarchyChangedCb comp) s tr
         if dBail r1.1 comp then r1
         else
           let r2 := callCheckedLoop eff comp (fun l => .compListenerCb l comp)
             (r1.1.compListenersOf comp) r1.1 r1.2
           if dBail r2.1 comp then r2
           else hierarchyChildLoopD eff comp r2.1 r2.2 ((r2.1.childrenOf comp).length) fuel) := by
  conv_lhs => unfold hierarchyDispatch

theorem hierarchyChildLoopD_zero (eff : Callback → DState → DState) (comp : Nat) (s : DState)
    (tr : DTrace) (fuel : Nat) : hierarchyChildLoopD eff comp s tr 0 fuel = (s, tr) := by
  conv_lhs => unfold hierarchyChildLoopD

theorem hierarchyChildLoopD_succ (eff : Callback → DState → DState) (comp : Nat) (s : DState)
    (tr : DTrace) (i fuel : Nat) :
    hierarchyChildLoopD eff comp s tr (i + 1) fuel
      = (let child := (s.childrenOf comp).getD i 0
         let r := hierarchyDispatch eff child s tr fuel
         if dBail r.1 comp then r
         else hierarchyChildLoopD eff comp r.1 r.2 (min i (r.1.childrenOf comp).length) fuel) := by
  conv_lhs => unfold hierarchyChildLoopD

/-! Small facts about traces, callbacks and the bail-out predicate. -/

theorem allQuiet_nil : allQuiet [] := by
  intro e he
  cases he

theorem allQuiet_append_false (tr : DTrace) (cb : Callback) (h : allQuiet tr) :
    allQuiet (tr ++ [(false, cb)]) := by
  intro e he
  rcases List.mem_append.mp he with h1 | h2
  · exact h e h1
  · rcases List.mem_singleton.mp h2 with rfl
    rfl

theorem fst_invokeCb (eff : Callback → DState → DState) (w : Nat) (cb : Callback)
    (s : DState) (tr : DTrace) : (invokeCb eff w cb s tr).1 = eff cb s := rfl

theorem snd_invokeCb (eff : Callback → DState → DState) (w : Nat) (cb : Callback)
    (s : DState) (tr : DTrace) : (invokeCb eff w cb s tr).2 = tr ++ [(dBail s w, cb)] := rfl

theorem dBail_eq_false {s : DState} {c : Nat} (h : c ∉ s.deleted) : dBail s c = false := by
  unfold dBail
  exact decide_eq_false h

theorem getD_mem_of_lt {l : List Nat} {j : Nat} (h : j < l.length) (d : Nat) :
    l.getD j d ∈ l := by
  rw [List.getD_eq_getElem?_getD, List.getElem?_eq_getElem h]
  exact List.getElem_mem h

/-- Own-listener loop: entered with the checker quiet, every recorded status is
`false`, and when the loop does not bail out the checker is still quiet. -/
theorem mouseOwnLoop_quiet (eff : Callback → DState → DState) (comp : Nat) :
    ∀ (i : Nat) (s : DState) (tr : DTrace), dBail s comp = false → allQuiet tr →
      allQuiet (mouseOwnLoop eff comp s tr i).tr ∧
      ((mouseOwnLoop eff comp s tr i).early = false →
        dBail (mouseOwnLoop eff comp s tr i).st comp = false) := by
  intro i
  induction i using Nat.strong_induction_on with
  | _ i ih =>
      intro s tr hb hq
      cases i with
      | zero =>
          rw [mouseOwnLoop_zero]
          exact ⟨hq, fun _ => hb⟩
      | succ j =>
          rw [mouseOwnLoop_succ]
          lift_lets
          intro target r
          have hrq : allQuiet r.2 := by
            unfold_let r
            rw [snd_invokeCb, hb]
            exact allQuiet_append_false tr _ hq
          split
          · exact ⟨hrq, fun hfalse => Bool.noConfusion hfalse⟩
          · rename_i hcond
            have hb' : dBail r.1 comp = false := by
              cases hdb : dBail r.1 comp
              · rfl
              · exact absurd hdb hcond
            exact ih (min j (mouseListenersOf r.1 comp).length) (by omega) r.1 r.2 hb' hrq

/-- Deep-listener loop: same shape, with the two-component checker. -/
theorem mouseDeepLoop_quiet (eff : Callback → DState → DState) (comp p : Nat) :
    ∀ (i : Nat) (s : DState) (tr : DTrace), dBail s comp = false → allQuiet tr →
      allQuiet (mouseDeepLoop eff comp p s tr i).tr ∧
      ((mouseDeepLoop eff comp p s tr i).early = false →
        dBail (mouseDeepLoop eff comp p s tr i).st comp = false) := by
  intro i
  induction i using Nat.strong_induction_on with
  | _ i ih =>
      intro s tr hb hq
      cases i with
      | zero =>
          rw [mouseDeepLoop_zero]
          exact ⟨hq, fun _ => hb⟩
      | succ j =>
          rw [mouseDeepLoop_succ]
          lift_lets
          intro target r
          have hrq : allQuiet r.2 := by
            unfold_let r
            rw [snd_invokeCb, hb]
            exact allQuiet_append_false tr _ hq
          split
          · exact ⟨hrq, fun hfalse => Bool.noConfusion hfalse⟩
          · rename_i hcond
            have hb' : dBail r.1 comp = false := by
              cases hdb : dBail r.1 comp
              · rfl
              · exact absurd (by rw [hdb, Bool.true_or]) hcond
            exact ih (min j (numDeepOf r.1 p).toNat) (by omega) r.1 r.2 hb' hrq

/-- Parent walk: every recorded status is `false`, and the checker stays quiet
when no loop bailed out. -/
theorem mouseParentWalk_quiet (eff : Callback → DState → DState) (comp : Nat) :
    ∀ (fuel : Nat) (popt : Option Nat) (s : DState) (tr : DTrace),
      dBail s comp = false → allQuiet tr →
      allQuiet (mouseParentWalk eff comp popt s tr fuel).tr := by
  intro fuel
  induction fuel with
  | zero =>
      intro popt s tr hb hq
      cases popt with
      | none =>
          rw [mouseParentWalk_none]
          exact hq
      | some p =>
          rw [mouseParentWalk_some_zero]
          exact hq
  | succ n ih =>
      intro popt s tr hb hq
      cases popt with
      | none =>
          rw [mouseParentWalk_none]
          exact hq
      | some p =>
          rw [mouseParentWalk_some_succ]
          split
          · lift_lets
            intro r
            obtain ⟨hrq, hrp⟩ :=
              mouseDeepLoop_quiet eff comp p ((numDeepOf s p).toNat) s tr hb hq
            split
            · exact hrq
            · rename_i hre
              have hre' : (mouseDeepLoop eff comp p s tr (numDeepOf s p).toNat).early
                  = false := by
                cases h2 : (mouseDeepLoop eff comp p s tr (numDeepOf s p).toNat).early
                · rfl
                · exact absurd h2 hre
              exact ih (r.st.parentOf p) r.st r.tr (hrp hre') hrq
          · exact ih (s.parentOf p) s tr hb hq

/-- `sendMouseEvent`: unconditionally, every recorded status is `false` — the
entry check bails before the first listener when the checker already fired. -/
theorem sendMouseEventDispatch_quiet (eff : Callback → DState → DState) (comp : Nat)
    (s : DState) (fuel : Nat) : allQuiet (sendMouseEventDispatch eff comp s fuel).tr := by
  unfold sendMouseEventDispatch
  split
  · exact allQuiet_nil
  · rename_i hcond
    have hb : dBail s comp = false := by
      cases h2 : dBail s comp
      · rfl
      · exact absurd h2 hcond
    lift_lets
    intro r
    obtain ⟨hrq, hrp⟩ :=
      mouseOwnLoop_quiet eff comp ((mouseListenersOf s comp).length) s [] hb allQuiet_nil
    split
    · exact hrq
    · rename_i hre
      have hre' : (mouseOwnLoop eff comp s [] (mouseListenersOf s comp).length).early
          = false := by
        cases h2 : (mouseOwnLoop eff comp s [] (mouseListenersOf s comp).length).early
        · rfl
        · exact absurd h2 hre
      exact mouseParentWalk_quiet eff comp fuel (r.st.parentOf comp) r.st r.tr
        (hrp hre') hrq

/-- `ListenerList::callChecked`: the guard runs before every call, so every
recorded status is `false` — no quiet-entry hypothesis needed. -/
theorem callCheckedLoop_quiet (eff : Callback → DState → DState) (comp : Nat)
    (mk : Nat → Callback) :
    ∀ (ls : List Nat) (s : DState) (tr : DTrace), allQuiet tr →
      allQuiet (callCheckedLoop eff comp mk ls s tr).2 := by
  intro ls
  induction ls with
  | nil =>
      intro s tr hq
      rw [callCheckedLoop_nil]
      exact hq
  | cons l rest ih =>
      intro s tr hq
      rw [callCheckedLoop_cons]
      split
      · exact hq
      · rename_i hcond
        have hb : dBail s comp = false := by
          cases h2 : dBail s comp
          · rfl
          · exact absurd h2 hcond
        lift_lets
        intro r
        refine ih r.1 r.2 ?_
        unfold_let r
        rw [snd_invokeCb, hb]
        exact allQuiet_append_false tr _ hq

/-- `callChecked` keeps the destruction-consistency invariant when the
callbacks do. -/
theorem callCheckedLoop_dinv (eff : Callback → DState → DState) (comp : Nat)
    (mk : Nat → Callback) (hEff : EffOk eff) :
    ∀ (ls : List Nat) (s : DState) (tr : DTrace), DInv s →
      DInv (callCheckedLoop eff comp mk ls s tr).1 := by
  intro ls
  induction ls with
  | nil =>
      intro s tr hs
      rw [callCheckedLoop_nil]
      exact hs
  | cons l rest ih =>
      intro s tr hs
      rw [callCheckedLoop_cons]
      split
      · exact hs
      · lift_lets
        intro r
        refine ih r.1 r.2 ?_
        unfold_let r
        rw [fst_invokeCb]
        exact hEff _ _ hs

/-- Child loop of `sendMovedResizedMessages`: entered quiet, records only
`false` statuses, and stays quiet unless it bails out. -/
theorem parentSizeChangedLoop_quiet (eff : Callback → DState → DState) (comp : Nat) :
    ∀ (i : Nat) (s : DState) (tr : DTrace), dBail s comp = false → allQuiet tr →
      allQuiet (parentSizeChangedLoop eff comp s tr i).tr ∧
      ((parentSizeChangedLoop eff comp s tr i).early = false →
        dBail (parentSizeChangedLoop eff comp s tr i).st comp = false) := by
  intro i
  induction i using Nat.strong_induction_on with
  | _ i ih =>
      intro s tr hb hq
      cases i with
      | zero =>
          rw [parentSizeChangedLoop_zero]
          exact ⟨hq, fun _ => hb⟩
      | succ j =>
          rw [parentSizeChangedLoop_succ]
          lift_lets
          intro target r
          have hrq : allQuiet r.2 := by
            unfold_let r
            rw [snd_invokeCb, hb]
            exact allQuiet_append_false tr _ hq
          split
          · exact ⟨hrq, fun hfalse => Bool.noConfusion hfalse⟩
          · rename_i hcond
            have hb' : dBail r.1 comp = false := by
              cases hdb : dBail r.1 comp
              · rfl
              · exact absurd hdb hcond
            exact ih (min j ((r.1.childrenOf comp).length)) (by omega) r.1 r.2 hb' hrq

/-- `sendMovedResizedMessages`: dispatched on a live component, every recorded
status is `false`; each stage re-checks the checker before the next. -/
theorem movedResizedDispatch_quiet (eff : Callback → DState → DState) (comp : Nat)
    (wasMoved wasResized : Bool) (s : DState) (hb : dBail s comp = false) :
    allQuiet (movedResizedDispatch eff comp wasMoved wasResized s).tr := by
  unfold movedResizedDispatch
  lift_lets
  intro r1 r2 r3 r4 r5
  have h1q : allQuiet r1.2 := by
    unfold_let r1
    split
    · rw [snd_invokeCb, hb]
      exact allQuiet_append_false [] _ allQuiet_nil
    · exact allQuiet_nil
  split
  · exact h1q
  · rename_i hc1
    have hb1 : dBail r1.1 comp = false := by
      cases hw : wasMoved
      · have he1 : r1 = (s, ([] : DTrace)) := by
          unfold_let r1
          rw [hw]
          rfl
        rw [he1]
        exact hb
      · cases hdb : dBail r1.1 comp
        · rfl
        · exact absurd (by rw [hw, hdb]; rfl) hc1
    have h2q : allQuiet r2.2 := by
      unfold_let r2
      split
      · rw [snd_invokeCb, hb1]
        exact allQuiet_append_false _ _ h1q
      · exact h1q
    split
    · exact h2q
    · rename_i hc2
      have hb2 : dBail r2.1 comp = false := by
        cases hw : wasResized
        · have he2 : r2 = r1 := by
            unfold_let r2
            rw [hw]
            rfl
          rw [he2]
          exact hb1
        · cases hdb : dBail r2.1 comp
          · rfl
          · exact absurd (by rw [hw, hdb]; rfl) hc2
      obtain ⟨h3q, h3p⟩ : allQuiet r3.tr ∧ (r3.early = false → dBail r3.st comp = false) := by
        unfold_let r3
        split
        · exact parentSizeChangedLoop_quiet eff comp ((r2.1.childrenOf comp).length)
            r2.1 r2.2 hb2 h2q
        · exact ⟨h2q, fun _ => hb2⟩
      split
      · exact h3q
      · rename_i hre
        have hre' : r3.early = false := by
          cases h2 : r3.early
          · rfl
          · exact absurd h2 hre
        have hb3 := h3p hre'
        have h4q : allQuiet r4.2 := by
          unfold_let r4
          cases hp : r3.st.parentOf comp with
          | some p =>
              rw [snd_invokeCb, hb3]
              exact allQuiet_append_false _ _ h3q
          | none => exact h3q
        split
        · exact h4q
        · exact callCheckedLoop_quiet eff comp _ (r4.1.compListenersOf comp) r4.1 r4.2 h4q

/-- Child loop of `internalHierarchyChanged`, given the dispatch property at
the same recursion depth: under destruction consistency every visited child is
live at its own dispatch entry, all recorded statuses are `false`, and the
invariant is preserved. -/
theorem hierarchyChildLoopD_quiet (eff : Callback → DState → DState)
    (fuel : Nat)
    (hd : ∀ (comp : Nat) (s : DState) (tr : DTrace), DInv s → dBail s comp = false →
      allQuiet tr → allQuiet (hierarchyDispatch eff comp s tr fuel).2 ∧
        DInv (hierarchyDispatch eff comp s tr fuel).1) :
    ∀ (i : Nat) (comp : Nat) (s : DState) (tr : DTrace), DInv s →
      i ≤ (s.childrenOf comp).length → allQuiet tr →
      allQuiet (hierarchyChildLoopD eff comp s tr i fuel).2 ∧
      DInv (hierarchyChildLoopD eff comp s tr i fuel).1 := by
  intro i
  induction i using Nat.strong_induction_on with
  | _ i ih =>
      intro comp s tr hs hle hq
      cases i with
      | zero =>
          rw [hierarchyChildLoopD_zero]
          exact ⟨hq, hs⟩
      | succ j =>
          rw [hierarchyChildLoopD_succ]
          lift_lets
          intro child r
          have hmem : child ∈ s.childrenOf comp := by
            unfold_let child
            exact getD_mem_of_lt (by omega) 0
          have hbc : dBail s child = false := dBail_eq_false (hs comp child hmem)
          obtain ⟨hrq, hrs⟩ : allQuiet r.2 ∧ DInv r.1 := by
            unfold_let r
            exact hd child s tr hs hbc hq
          split
          · exact ⟨hrq, hrs⟩
          · exact ih (min j ((r.1.childrenOf comp).length)) (by omega) comp r.1 r.2 hrs
              (by omega) hrq

/-- `internalHierarchyChanged`: dispatched on a live component in a
destruction-consistent state with callbacks that respect it, every recorded
status — including those of the recursive child dispatches — is `false`, and
consistency is preserved. -/
theorem hierarchyDispatch_quiet (eff : Callback → DState → DState) (hEff : EffOk eff) :
    ∀ (fuel : Nat) (comp : Nat) (s : DState) (tr : DTrace), DInv s →
      dBail s comp = false → allQuiet tr →
      allQuiet (hierarchyDispatch eff comp s tr fuel).2 ∧
      DInv (hierarchyDispatch eff comp s tr fuel).1 := by
  intro fuel
  induction fuel with
  | zero =>
      intro comp s tr hs hb hq
      rw [hierarchyDispatch_zero]
      exact ⟨hq, hs⟩
  | succ n ih =>
      intro comp s tr hs hb hq
      rw [hierarchyDispatch_succ]
      lift_lets
      intro r1 r2
      have h1q : allQuiet r1.2 := by
        unfold_let r1
        rw [snd_invokeCb, hb]
        exact allQuiet_append_false _ _ hq
      have h1s : DInv r1.1 := by
        unfold_let r1
        rw [fst_invokeCb]
        exact hEff _ _ hs
      split
      · exact ⟨h1q, h1s⟩
      · have h2q : allQuiet r2.2 := by
          unfold_let r2
          exact callCheckedLoop_quiet eff comp _ (r1.1.compListenersOf comp) r1.1 r1.2 h1q
        have h2s : DInv r2.1 := by
          unfold_let r2
          exact callCheckedLoop_dinv eff comp _ hEff (r1.1.compListenersOf comp) r1.1 r1.2 h1s
        split
        · exact ⟨h2q, h2s⟩
        · exact hierarchyChildLoopD_quiet eff n ih ((r2.1.childrenOf comp).length) comp
            r2.1 r2.2 h2s le_rfl h2q

/-- C5: listener dispatch is reentrancy-safe via the bail-out checkers.  In the
dispatch model every callback invocation is recorded together with the
checker's status at the moment of the call; in `sendMouseEvent` (own listeners,
then each ancestor's deep listeners), `sendMovedResizedMessages` and
`internalHierarchyChanged` (the latter on a live component, in a
destruction-consistent state, with callbacks preserving that consistency) every
recorded status is `false`: once a checker reports the watched component
deleted, no further listener, parent mouse-listener, or child notification is
invoked in that dispatch. -/
theorem claim_C5_bailout_reentrancy :
    (∀ (eff : Callback → DState → DState) (comp : Nat) (s : DState) (fuel : Nat),
        allQuiet (sendMouseEventDispatch eff comp s fuel).tr) ∧
    (∀ (eff : Callback → DState → DState) (comp : Nat) (wasMoved wasResized : Bool)
        (s : DState), dBail s comp = false →
        allQuiet (movedResizedDispatch eff comp wasMoved wasResized s).tr) ∧
    (∀ (eff : Callback → DState → DState) (comp : Nat) (s : DState) (fuel : Nat),
        EffOk eff → DInv s → dBail s comp = false →
        allQuiet (hierarchyDispatch eff comp s [] fuel).2) := by
  refine ⟨?_, ?_, ?_⟩
  · intro eff comp s fuel
    exact sendMouseEventDispatch_quiet eff comp s fuel
  · intro eff comp wasMoved wasResized s hb
    exact movedResizedDispatch_quiet eff comp wasMoved wasResized s hb
  · intro eff comp s fuel hEff hs hb
    exact (hierarchyDispatch_quiet eff hEff fuel comp s [] hs hb allQuiet_nil).1

/-- Witness for C5 on the concrete dispatch fixture with identity callbacks. -/
theorem claim_C5_witness :
    allQuiet (sendMouseEventDispatch (fun _ s => s) 0 dispatchFixture 3).tr ∧
    allQuiet (movedResizedDispatch (fun _ s => s) 0 true true dispatchFixture).tr ∧
    allQuiet (hierarchyDispatch (fun _ s => s) 0 dispatchFixture [] 3).2 :=
  ⟨claim_C5_bailout_reentrancy.1 (fun _ s => s) 0 dispatchFixture 3,
   claim_C5_bailout_reentrancy.2.1 (fun _ s => s) 0 true true dispatchFixture (by decide),
   claim_C5_bailout_reentrancy.2.2 (fun _ s => s) 0 dispatchFixture 3
     (fun _ _ h => h) (fun _ c _ => List.not_mem_nil c) (by decide)⟩

end Automello
